import Mathlib

/-!
Verification of the HTML-to-record extraction and cross-table join pipeline of
the UFCWebScraper repository (espnstatsscraper/espn_stats_scraper.py and
ufcstatsscraper/ufc_stats_scraper.py), via a shallow embedding in Lean.

Text is modelled as `List Char` internally (wrapped in `String` at the API
boundary).  Python dicts are modelled as association lists with Python-dict
semantics: insertion order is preserved, writing to an existing key replaces
the value in place, writing a new key appends it at the end.  Digits and
letter-case operations are modelled over ASCII, the range exercised by the
scraped pages and by every claim.
-/

namespace Scraper

/-- Python whitespace (`str.strip`, `str.split`, regex `\s`):
space, tab, newline, carriage return, vertical tab, form feed. -/
def pyIsWS (c : Char) : Bool :=
  c.toNat = 32 || c.toNat = 9 || c.toNat = 10 || c.toNat = 13 ||
  c.toNat = 11 || c.toNat = 12

/-- ASCII decimal digit `0`-`9` (regex `\d` as exercised on these pages). -/
def isDigitC (c : Char) : Bool :=
  48 ≤ c.toNat && c.toNat ≤ 57

/-- ASCII letter (regex `[A-Za-z]`). -/
def isAlphaC (c : Char) : Bool :=
  (97 ≤ c.toNat && c.toNat ≤ 122) || (65 ≤ c.toNat && c.toNat ≤ 90)

/-- `str.strip()`: drop whitespace from both ends. -/
def pyStrip (l : List Char) : List Char :=
  ((l.dropWhile pyIsWS).reverse.dropWhile pyIsWS).reverse

/-- Worker for `squashWS`: the flag records whether the previous character
was whitespace (i.e. the current run already emitted its single space). -/
def squashWSA : Bool → List Char → List Char
  | _, [] => []
  | inWS, c :: cs =>
    if pyIsWS c then
      if inWS then squashWSA true cs else ' ' :: squashWSA true cs
    else c :: squashWSA false cs

/-- Collapse every maximal whitespace run to a single space
(the `re.sub(r'\s+', ' ', ·)` step of `_clean_text`). -/
def squashWS (l : List Char) : List Char :=
  squashWSA false l

/-- `_clean_text`: `re.sub(r'\s+', ' ', text.strip())`; empty/None input
yields the empty string. -/
def cleanText (s : String) : String :=
  String.mk (squashWS (pyStrip s.data))

/-- ASCII lower-casing, one character (Python `str.lower()` on the ASCII
range these claims exercise). -/
def lowerC (c : Char) : Char :=
  if 'A' ≤ c && c ≤ 'Z' then Char.ofNat (c.toNat + 32) else c

/-- ASCII upper-casing, one character (Python `str.upper()`). -/
def upperC (c : Char) : Char :=
  if 'a' ≤ c && c ≤ 'z' then Char.ofNat (c.toNat - 32) else c

/-- The decimal digit character for `n < 10` (as printed by Python `str`). -/
def digitChar (n : Nat) : Char :=
  if n = 0 then '0' else if n = 1 then '1' else if n = 2 then '2'
  else if n = 3 then '3' else if n = 4 then '4' else if n = 5 then '5'
  else if n = 6 then '6' else if n = 7 then '7' else if n = 8 then '8'
  else '9'

/-- Numeric value of a decimal digit character (`int` on one digit). -/
def digitVal (c : Char) : Nat :=
  c.toNat - 48

/-- Fuel-driven worker for `natRepr` (the fuel only serves structural
recursion; `natRepr` always supplies enough). -/
def natReprAux : Nat → Nat → List Char
  | 0, _ => []
  | fuel + 1, n =>
    if n < 10 then [digitChar n]
    else natReprAux fuel (n / 10) ++ [digitChar (n % 10)]

/-- Decimal representation of a natural number, as Python `str(n)` /
f-string interpolation prints it. -/
def natRepr (n : Nat) : List Char :=
  natReprAux (n + 1) n

/-- Value of a digit string (Python `int(·)` on a string of digits). -/
def natOfDigits (l : List Char) : Nat :=
  l.foldl (fun a c => 10 * a + digitVal c) 0

/-- Zero-padded decimal rendering, Python `f"{n:0wd}"` for natural `n`. -/
def padZeros (w : Nat) (n : Nat) : String :=
  String.mk (List.replicate (w - (natRepr n).length) '0' ++ natRepr n)

/-! ## Python dictionaries

Association lists with Python-dict semantics: `dget` looks a key up,
`dinsert` models `d[k] = v` (replace in place if the key is present,
else append at the end), `dupsert` models `d.setdefault(k, d0)` followed
by a mutation of the value. -/

/-- Dictionary lookup (`d.get(k)` / `k in d`). -/
def dget {α : Type} : List (String × α) → String → Option α
  | [], _ => none
  | (k', v) :: d, k => if k' = k then some v else dget d k

/-- `d[k] = v`: replace the value at `k` in place, or append `(k, v)`. -/
def dinsert {α : Type} : List (String × α) → String → α → List (String × α)
  | [], k, v => [(k, v)]
  | (k', v') :: d, k, v =>
    if k' = k then (k, v) :: d else (k', v') :: dinsert d k v

/-- `d.setdefault(k, d0)` followed by an in-place mutation `f` of the value
stored under `k` (used for `combined.setdefault(key, {})[section] = m`). -/
def dupsert {α : Type} : List (String × α) → String → (α → α) → α → List (String × α)
  | [], k, f, d0 => [(k, f d0)]
  | (k', v) :: d, k, f, d0 =>
    if k' = k then (k, f v) :: d else (k', v) :: dupsert d k f d0

/-- A sequence of `d[k] = v` writes, performed left to right. -/
def applyUpd {α : Type} (ps : List (String × α)) (d : List (String × α)) :
    List (String × α) :=
  ps.foldl (fun d p => dinsert d p.1 p.2) d

/-! ## Python values

A `PyVal` is a value stored in a scraped record: `None`, a string, or a
nested dict (the attached metrics mappings). -/

inductive PyVal : Type where
  | pnone : PyVal
  | pstr : String → PyVal
  | pdict : List (String × PyVal) → PyVal

/-- A scraped record / Python dict with `PyVal` values. -/
abbrev PyDict := List (String × PyVal)

/-- Python truthiness of a `PyVal` (`None` and empty containers are falsy). -/
def truthy : PyVal → Bool
  | .pnone => false
  | .pstr s => !(s == "")
  | .pdict d => !d.isEmpty

mutual
/-- Python `repr` of a value (only reached for the degenerate case of a
dict interpolated into the join-key f-string). -/
def pyReprV : PyVal → String
  | .pnone => "None"
  | .pstr s => "\x27" ++ s ++ "\x27"
  | .pdict d => "\x7b" ++ pyReprEntries d ++ "\x7d"

/-- `repr` of dict entries, comma-separated in insertion order. -/
def pyReprEntries : List (String × PyVal) → String
  | [] => ""
  | [(k, v)] => "\x27" ++ k ++ "\x27: " ++ pyReprV v
  | (k, v) :: rest =>
    "\x27" ++ k ++ "\x27: " ++ pyReprV v ++ ", " ++ pyReprEntries rest
end

/-- Python `str(·)` / f-string interpolation of a value. -/
def pyStr : PyVal → String
  | .pnone => "None"
  | .pstr s => s
  | .pdict d => pyReprV (.pdict d)

/-- `d.get(k)` on a record: missing keys yield `None`. -/
def dgetD (d : PyDict) (k : String) : PyVal :=
  (dget d k).getD .pnone

/-! ## Cross-Table Joiner (`_attach_stats_to_fights`)

A Section Stats Payload (one entry of `stats_sections`, as produced by
`_parse_stats_table`) maps a join key to `{'meta': ..., 'metrics': ...}`. -/

/-- One value of a Section Stats Payload: the `meta` and `metrics` dicts. -/
structure SectionRow : Type where
  meta : PyDict
  metrics : PyDict

/-- `stats_by_section`: the per-section payloads.  `_attach_stats_to_fights`
reads only the keys `"striking"`, `"clinch"`, `"ground"`
(`stats_by_section.get(section, {})`); a missing section is the empty dict. -/
structure Sections : Type where
  striking : List (String × SectionRow)
  clinch : List (String × SectionRow)
  ground : List (String × SectionRow)

/-- The join key of a fight entry:
`str(f.get("event_id") or f"{f.get('date')}|{f.get('opponent')}")`. -/
def joinKey (f : PyDict) : String :=
  pyStr (if truthy (dgetD f "event_id") then dgetD f "event_id"
         else .pstr (pyStr (dgetD f "date") ++ "|" ++ pyStr (dgetD f "opponent")))

/-- `str(payload["meta"].get("event_id") or key)`: the key under which one
payload row lands in the combined map. -/
def eidOrKey (row : SectionRow) (key : String) : String :=
  if truthy (dgetD row.meta "event_id") then pyStr (dgetD row.meta "event_id")
  else key

/-- One `combined.setdefault(ek, {})[section] = metrics` step. -/
def combInsert (c : List (String × PyDict)) (ek section_ : String)
    (m : PyDict) : List (String × PyDict) :=
  dupsert c ek (fun inner => dinsert inner section_ (.pdict m)) []

/-- Fold one section's payload into the combined map (inner loop of the
`for section in ("striking", "clinch", "ground")` loop). -/
def foldPayload (section_ : String) (p : List (String × SectionRow))
    (c : List (String × PyDict)) : List (String × PyDict) :=
  p.foldl (fun c kv => combInsert c (eidOrKey kv.2 kv.1) section_ kv.2.metrics) c

/-- The combined map `{join_key -> {'striking': ..., 'clinch': ..., 'ground': ...}}`,
sections folded in the order the code iterates them. -/
def buildCombined (S : Sections) : List (String × PyDict) :=
  foldPayload "ground" S.ground
    (foldPayload "clinch" S.clinch (foldPayload "striking" S.striking []))

/-- Lookup of one section's attached value in the combined map. -/
def lookupSec (c : List (String × PyDict)) (k section_ : String) : Option PyVal :=
  (dget c k).bind (fun inner => dget inner section_)

/-- A well-formed Section Stats Payload, as `_parse_stats_table` produces
it: dict keys are unique, and each row's stored join key agrees with its
dict key (`str(meta.event_id or key) == key`). -/
@[reducible] def WFpayload (p : List (String × SectionRow)) : Prop :=
  (∀ kv ∈ p, eidOrKey kv.2 kv.1 = kv.1) ∧ (p.map Prod.fst).Nodup

/-- The canonical fight-history fields of a Fight History Entry. -/
def canonicalFields : List String :=
  ["date", "opponent", "opponent_url", "opponent_id", "result", "method",
   "round", "time", "event", "event_url", "event_id"]

/-- The per-fight mutation: when the fight's join key is in `combined`,
write `f[section] = metrics` for each section present for that key. -/
def attachOne (c : List (String × PyDict)) (f : PyDict) : PyDict :=
  match dget c (joinKey f) with
  | none => f
  | some secs => applyUpd secs f

/-- `_attach_stats_to_fights`: mutate every fight in the list (returning the
list, as the code does; the empty list is returned unchanged). -/
def attachStats (fights : List PyDict) (S : Sections) : List PyDict :=
  fights.map (attachOne (buildCombined S))

/-! ## Table Reader: `_header_map` -/

/-- The dict comprehension `{h: i for i, h in enumerate(headers)}`. -/
def headerMapAux : Nat → List String → List (String × Nat) → List (String × Nat)
  | _, [], d => d
  | i, h :: t, d => headerMapAux (i + 1) t (dinsert d h i)

/-- `self._clean_text(th.get_text()).lower()`: one header cell's key. -/
def headerKey (s : String) : String :=
  String.mk ((squashWS (pyStrip s.data)).map lowerC)

/-- `_header_map`: lower-cased cleaned header text -> column index, built
from the `thead th` texts of the table. -/
def headerMap (ths : List String) : List (String × Nat) :=
  headerMapAux 0 (ths.map headerKey) []

/-- Position of the last occurrence of `k` in a list (specification-side
description of which column index survives for a duplicated header). -/
def lastIdx (hs : List String) (k : String) : Option Nat :=
  match hs with
  | [] => none
  | h :: t =>
    match lastIdx t k with
    | some n => some (n + 1)
    | none => if h = k then some 0 else none

/-! ## Field Parsers: `_parse_stat_fraction` (ufc_stats_scraper) -/

/-- `re.search(r'(\d+)', ·)`: the first maximal digit run and the text
after it, scanning left to right. -/
def fracSearch : List Char → Option (List Char × List Char)
  | [] => none
  | c :: cs =>
    if isDigitC c then some ((c :: cs).takeWhile isDigitC, (c :: cs).dropWhile isDigitC)
    else fracSearch cs

/-- The optional regex group `(?:\s+of\s+(\d+))?` immediately after the
first digit run: whitespace, literal `of`, whitespace, digits. -/
def ofGroup (l : List Char) : Option (List Char) :=
  if (l.takeWhile pyIsWS).isEmpty then none
  else
    match l.dropWhile pyIsWS with
    | 'o' :: 'f' :: r2 =>
      if (r2.takeWhile pyIsWS).isEmpty then none
      else
        let ms := (r2.dropWhile pyIsWS).takeWhile isDigitC
        if ms.isEmpty then none else some ms
    | _ => none

/-- `_parse_stat_fraction`: parse `"X of Y"`-format stats. -/
def parseStatFraction (text : String) : Nat × Nat :=
  if text = "" || String.mk (pyStrip text.data) = "---" then (0, 0)
  else
    match fracSearch (pyStrip text.data) with
    | none => (0, 0)
    | some (ds, rest) =>
      match ofGroup rest with
      | some ms => (natOfDigits ds, natOfDigits ms)
      | none => (natOfDigits ds, natOfDigits ds)

/-! ## Field Parsers: `_parse_schedule_date` (espn_stats_scraper) -/

/-- The module-level `MONTHS` table. -/
def monthsTable : List (String × Nat) :=
  [("Jan", 1), ("Feb", 2), ("Mar", 3), ("Apr", 4), ("May", 5), ("Jun", 6),
   ("Jul", 7), ("Aug", 8), ("Sep", 9), ("Oct", 10), ("Nov", 11), ("Dec", 12)]

/-- Python `str.title()`: upper-case a letter that does not follow a letter,
lower-case the rest (ASCII model). -/
def pyTitleAux : Bool → List Char → List Char
  | _, [] => []
  | prevAlpha, c :: cs =>
    (if prevAlpha then lowerC c else upperC c) :: pyTitleAux (isAlphaC c) cs

/-- Python `str.title()` on a character list. -/
def pyTitle (l : List Char) : List Char :=
  pyTitleAux false l

/-- `re.match(r'([A-Za-z]{3})\s+(\d{1,2})', ·)`: three letters at the start,
then whitespace, then one or two (greedy) digits; returns the two groups. -/
def scheduleMatch (l : List Char) : Option (List Char × List Char) :=
  match l with
  | c1 :: c2 :: c3 :: rest =>
    if isAlphaC c1 && isAlphaC c2 && isAlphaC c3 then
      if (rest.takeWhile pyIsWS).isEmpty then none
      else
        match rest.dropWhile pyIsWS with
        | d1 :: d2 :: _ =>
          if isDigitC d1 then
            if isDigitC d2 then some ([c1, c2, c3], [d1, d2])
            else some ([c1, c2, c3], [d1])
          else none
        | [d1] => if isDigitC d1 then some ([c1, c2, c3], [d1]) else none
        | [] => none
    else none
  | _ => none

/-- `_parse_schedule_date`: convert `"Sep 28"` + year to `"YYYY-MM-DD"`;
`None` for empty text; the cleaned raw text on any mismatch.  The year is
the non-negative calendar year supplied by the schedule-page caller. -/
def parseScheduleDate (text : String) (year : Nat) : Option String :=
  if text = "" then none
  else
    match scheduleMatch (pyStrip text.data) with
    | none => some (cleanText text)
    | some (mon3, ds) =>
      match dget monthsTable (String.mk (pyTitle mon3)) with
      | none => some (cleanText text)
      | some mon =>
        some (padZeros 4 year ++ "-" ++ padZeros 2 mon ++ "-" ++
              padZeros 2 (natOfDigits ds))

/-! ## Identifier Extractor: both flavors of `_extract_id_from_url` -/

/-- Does the regex `/id/(\d+)` match at the head of the list? -/
def idMatchHere (l : List Char) : Bool :=
  match l with
  | '/' :: 'i' :: 'd' :: '/' :: d :: _ => isDigitC d
  | _ => false

/-- `re.search(r'/id/(\d+)', ·)`: scan for the first match position and
capture the maximal digit run after `/id/`; empty capture list when the
pattern occurs nowhere. -/
def espnIdScan : List Char → List Char
  | [] => []
  | c :: cs =>
    if idMatchHere (c :: cs) then ((c :: cs).drop 4).takeWhile isDigitC
    else espnIdScan cs

/-- ESPN `_extract_id_from_url`: digits of the first `/id/(\d+)` match,
else the empty string; empty input yields the empty string. -/
def espnExtractId (url : String) : String :=
  if url = "" then "" else String.mk (espnIdScan url.data)

/-- Python `url.split('/')`: split on every slash, keeping empty pieces. -/
def splitSlash : List Char → List (List Char)
  | [] => [[]]
  | c :: cs =>
    if c = '/' then [] :: splitSlash cs
    else
      match splitSlash cs with
      | [] => [[c]]
      | g :: gs => (c :: g) :: gs

/-- UFC `_extract_id_from_url`: `url.split('/')[-1] if url else ""`. -/
def ufcExtractId (url : String) : String :=
  if url = "" then "" else String.mk ((splitSlash url.data).getLast?.getD [])

/-! ## `_strip_accents` and `_names_match_fotn` -/

/-- NFD decompositions of the pre-composed Latin letters that occur in
fighter names: base letter followed by its combining mark.  This models
`unicodedata.normalize('NFD', ·)` on the range the scraper meets;
characters without an entry decompose to themselves. -/
def nfdTable : List (Char × List Char) :=
  [('á', ['a', '́']), ('é', ['e', '́']), ('í', ['i', '́']),
   ('ó', ['o', '́']), ('ú', ['u', '́']), ('ý', ['y', '́']),
   ('à', ['a', '̀']), ('è', ['e', '̀']), ('ì', ['i', '̀']),
   ('ò', ['o', '̀']), ('ù', ['u', '̀']),
   ('â', ['a', '̂']), ('ê', ['e', '̂']), ('î', ['i', '̂']),
   ('ô', ['o', '̂']), ('û', ['u', '̂']),
   ('ä', ['a', '̈']), ('ë', ['e', '̈']), ('ï', ['i', '̈']),
   ('ö', ['o', '̈']), ('ü', ['u', '̈']),
   ('ã', ['a', '̃']), ('õ', ['o', '̃']), ('ñ', ['n', '̃']),
   ('å', ['a', '̊']), ('ç', ['c', '̧']), ('č', ['c', '̌']),
   ('š', ['s', '̌']), ('ž', ['z', '̌']),
   ('Á', ['A', '́']), ('É', ['E', '́']), ('Í', ['I', '́']),
   ('Ó', ['O', '́']), ('Ú', ['U', '́']), ('Ñ', ['N', '̃']),
   ('Ç', ['C', '̧'])]

/-- NFD decomposition of one character. -/
def nfdChar (c : Char) : List Char :=
  match nfdTable.lookup c with
  | some l => l
  | none => [c]

/-- Is the character a combining mark (Unicode category `Mn`, Combining
Diacritical Marks block — the range `nfdChar` emits)? -/
def isMn (c : Char) : Bool :=
  0x300 ≤ c.toNat && c.toNat ≤ 0x36F

/-- `_strip_accents`: NFD-decompose, then drop the combining marks. -/
def stripAccents (l : List Char) : List Char :=
  ((l.map nfdChar).flatten).filter (fun c => !isMn c)

/-- Worker for `pySplitWS`: `cur` is the reversed in-progress word, when a
word is open. -/
def pySplitWSA : Option (List Char) → List Char → List (List Char)
  | cur, [] =>
    match cur with
    | some w => [w.reverse]
    | none => []
  | cur, c :: cs =>
    if pyIsWS c then
      match cur with
      | some w => w.reverse :: pySplitWSA none cs
      | none => pySplitWSA none cs
    else
      match cur with
      | some w => pySplitWSA (some (c :: w)) cs
      | none => pySplitWSA (some [c]) cs

/-- Python `str.split()` with no argument: maximal non-whitespace runs. -/
def pySplitWS (l : List Char) : List (List Char) :=
  pySplitWSA none l

/-- Does `a` start with `needle`? (one regex-free prefix test) -/
def startsWithL : List Char → List Char → Bool
  | [], _ => true
  | _ :: _, [] => false
  | a :: as, b :: bs => a = b && startsWithL as bs

/-- Python substring containment `needle in hay`. -/
def subIn (needle hay : List Char) : Bool :=
  match hay with
  | [] => needle.isEmpty
  | _ :: t => startsWithL needle hay || subIn needle t

/-- The lower-cased accent-stripped last name used by `_names_match_fotn`:
last whitespace-separated part of `strip_accents(n).lower()`, or empty. -/
def lastNameKey (n : String) : List Char :=
  ((pySplitWS ((stripAccents n.data).map lowerC)).getLast?).getD []

/-- The lower-cased accent-stripped FOTN text. -/
def fotnKey (t : String) : List Char :=
  (stripAccents t.data).map lowerC

/-- `_names_match_fotn` on a two-name fight (the `len(names) != 2` guard is
vacuous for a pair): both last names non-empty and contained in the text. -/
def namesMatchFotn (n1 n2 : String) (t : String) : Bool :=
  if t = "" then false
  else
    (!(lastNameKey n1).isEmpty && subIn (lastNameKey n1) (fotnKey t)) &&
    (!(lastNameKey n2).isEmpty && subIn (lastNameKey n2) (fotnKey t))

/-! ## Cells and anchors

A `<td>` is modelled by its text content and its first `<a>` child (the
only one the code ever reads, via `td.find('a')` / `td.find('a', href=True)`
/ the `data-game-link` preference, which all select a single anchor). -/

/-- An `<a>` element: optional `href` attribute and its visible text
(already in the `get_text(..., strip=True)` form BeautifulSoup returns). -/
structure Anchor : Type where
  href : Option String
  text : String

/-- A `<td>` cell: full text plus the anchor, when one exists. -/
structure Cell : Type where
  text : String
  anchor : Option Anchor

/-- `urljoin(self.base_url, href)` for the href shapes these pages carry:
an absolute URL is kept, a root-relative or bare path is joined onto
`https://www.espn.com`. -/
def urljoinBase (href : String) : String :=
  if subIn "://".data href.data then href
  else if href.data.head? = some '/' then "https://www.espn.com" ++ href
  else "https://www.espn.com/" ++ href

/-! ## History builder: `_parse_fight_history_table` -/

/-- The fixed synonym table of `_normalize_header`. -/
def synonymTable : List (String × String) :=
  [("date", "date"), ("opponent", "opponent"), ("res", "result"),
   ("result", "result"), ("decision", "method"), ("method", "method"),
   ("rnd", "round"), ("round", "round"), ("time", "time"), ("event", "event")]

/-- `_normalize_header`: clean, lower, strip non-letters, then the synonym
table with pass-through fallback. -/
def normalizeHeader (s : String) : String :=
  let t := ((squashWS (pyStrip s.data)).map lowerC).filter
    (fun c => 'a' ≤ c && c ≤ 'z')
  (dget synonymTable (String.mk t)).getD (String.mk t)

/-- The assumed 7-column layout used when headers look wrong or missing:
Date | Opponent | Res. | Decision | Rnd | Time | Event. -/
def hist7 : List String :=
  ["date", "opponent", "result", "method", "round", "time", "event"]

/-- `td.find('a', href=True)`: the anchor when it carries an href. -/
def cellLinked (td : Cell) : Option (String × String) :=
  td.anchor.bind (fun a => a.href.map (fun h => (h, a.text)))

/-- Processing of one history cell at index `i` (one iteration of the
`for i, td in enumerate(tds)` loop). -/
def historyCellStep (headers : List String) (entry : PyDict) (i : Nat)
    (td : Cell) : PyDict :=
  match headers.get? i with
  | none => entry
  | some key =>
    if hist7.contains key then
      if key = "opponent" || key = "event" then
        match cellLinked td with
        | none => dinsert entry key (.pstr (cleanText td.text))
        | some (h, atext) =>
          let linkText :=
            if cleanText atext = "" then cleanText td.text else cleanText atext
          let href := urljoinBase h
          let entry :=
            if key = "opponent" then
              dinsert (dinsert entry "opponent_url" (.pstr href))
                "opponent_id" (.pstr (espnExtractId href))
            else
              dinsert (dinsert entry "event_url" (.pstr href))
                "event_id" (.pstr (espnExtractId href))
          dinsert entry key (.pstr linkText)
      else dinsert entry key (.pstr (cleanText td.text))
    else entry

/-- The enumerated cell loop building one history entry. -/
def historyRowAux (headers : List String) : Nat → List Cell → PyDict → PyDict
  | _, [], e => e
  | i, td :: tds, e => historyRowAux headers (i + 1) tds (historyCellStep headers e i td)

/-- The result post-processing: uppercase a truthy result and keep it only
when it lands in {W, L, D, NC}. -/
def resultFixup (entry : PyDict) : PyDict :=
  match dget entry "result" with
  | some (.pstr s) =>
    if s = "" then entry
    else
      let r := String.mk ((pyStrip s.data).map upperC)
      if r = "W" || r = "L" || r = "D" || r = "NC" then
        dinsert entry "result" (.pstr r)
      else entry
  | _ => entry

/-- One history entry from one body row. -/
def historyRow (headers : List String) (tds : List Cell) : PyDict :=
  resultFixup (historyRowAux headers 0 tds [])

/-- A fight-history table: `thead th` texts (when a `thead` exists) and
`tbody` rows (when a `tbody` exists). -/
structure HistTable : Type where
  thead : Option (List String)
  tbody : Option (List (List Cell))

/-- `_parse_fight_history_table`: header-driven column mapping with the
fixed 7-column fallback; rows without cells are skipped. -/
def parseFightHistoryTable (t : HistTable) : List PyDict :=
  match t.thead, t.tbody with
  | some ths, some trs =>
    let headers0 := ths.map normalizeHeader
    let headers := if headers0.length < 3 then hist7 else headers0
    trs.filterMap (fun tds =>
      if tds.isEmpty then none else some (historyRow headers tds))
  | _, _ => []

/-! ## Stats builder: `_parse_stats_table` -/

/-- The fixed meta key set of a Section Stats Payload row. -/
def metaKeys7 : List String :=
  ["date", "opponent", "opponent_url", "opponent_id", "event_url",
   "event_id", "result"]

/-- `.replace("\xa0", " ")` on one character. -/
def nbspToSpace (c : Char) : Char :=
  if c = '\xA0' then ' ' else c

/-- `th.get_text(strip=True).replace("\xa0", " ").strip()`. -/
def statHeaderText (s : String) : String :=
  String.mk (pyStrip ((pyStrip s.data).map nbspToSpace))

/-- `td_text`: stripped nbsp-normalized cell text, `None` when empty or
the `-` placeholder. -/
def tdTextVal (td : Cell) : PyVal :=
  let s := String.mk (pyStrip ((pyStrip td.text.data).map nbspToSpace))
  if s = "" || s = "-" then .pnone else .pstr s

/-- The synthetic column key `f"col_{i}"`. -/
def colKey (i : Nat) : String :=
  String.mk ('c' :: 'o' :: 'l' :: '_' :: natRepr i)

/-- `parse_opponent`: (name, opponent_url, opponent_id) of a stats cell. -/
def statOppVals (td : Cell) : PyVal × PyVal × PyVal :=
  match td.anchor with
  | some a =>
    let name := if a.text = "" then PyVal.pnone else .pstr a.text
    match a.href with
    | some h =>
      let href := urljoinBase h
      (name, .pstr href, .pstr (espnExtractId href))
    | none => (name, .pnone, .pnone)
  | none => (tdTextVal td, .pnone, .pnone)

/-- `parse_event`: (event_url, event_id) of a stats cell. -/
def statEventVals (td : Cell) : PyVal × PyVal :=
  match td.anchor with
  | some a =>
    match a.href with
    | some h =>
      let href := urljoinBase h
      (.pstr href, .pstr (espnExtractId href))
    | none => (.pnone, .pnone)
  | none => (.pnone, .pnone)

/-- One iteration of the stats-row cell loop: the column name is the
header at `i` when one exists, else the synthetic `col_i`. -/
def statsCellStep (headers : List String) (row : PyDict) (i : Nat)
    (td : Cell) : PyDict :=
  let col := (headers.get? i).getD (colKey i)
  if col = "Date" then dinsert row "date" (tdTextVal td)
  else if col = "Opponent" then
    let v := statOppVals td
    dinsert (dinsert (dinsert row "opponent" v.1) "opponent_url" v.2.1)
      "opponent_id" v.2.2
  else if col = "Event" then
    let v := statEventVals td
    dinsert (dinsert row "event_url" v.1) "event_id" v.2
  else if col = "Res." || col = "Res" then dinsert row "result" (tdTextVal td)
  else dinsert row col (tdTextVal td)

/-- The enumerated cell loop building one stats row dict. -/
def statsRowAux (headers : List String) : Nat → List Cell → PyDict → PyDict
  | _, [], r => r
  | i, td :: tds, r => statsRowAux headers (i + 1) tds (statsCellStep headers r i td)

/-- The full stats row dict of one body row. -/
def statsRow (headers : List String) (tds : List Cell) : PyDict :=
  statsRowAux headers 0 tds []

/-- The `metrics` dict: every row key outside the fixed meta set. -/
def rowMetrics (row : PyDict) : PyDict :=
  row.filter (fun p => !(metaKeys7.contains p.1))

/-- The `meta` dict: exactly the seven fixed keys, each from `row.get`. -/
def rowMeta (row : PyDict) : PyDict :=
  metaKeys7.map (fun k => (k, dgetD row k))

/-- A Striking/Clinch/Ground table: `thead th` texts and body rows. -/
structure StatsTable : Type where
  thead : List String
  tbody : List (List Cell)

/-- `_parse_stats_table`: `{join_key -> {'meta': ..., 'metrics': ...}}`;
`None` tables yield the empty payload, rows without cells are skipped,
repeated join keys overwrite (last-write-wins). -/
def parseStatsTable (t? : Option StatsTable) : List (String × SectionRow) :=
  match t? with
  | none => []
  | some t =>
    let headers := t.thead.map statHeaderText
    t.tbody.foldl (fun out tds =>
      if tds.isEmpty then out
      else
        let row := statsRow headers tds
        dinsert out (joinKey row) ⟨rowMeta row, rowMetrics row⟩) []

/-! ## Dictionary lemmas -/

theorem applyUpd_nil {α : Type} (d : List (String × α)) : applyUpd [] d = d := rfl

theorem applyUpd_cons {α : Type} (p : String × α) (t d : List (String × α)) :
    applyUpd (p :: t) d = applyUpd t (dinsert d p.1 p.2) := rfl

theorem dget_dinsert {α : Type} (d : List (String × α)) (k k' : String) (v : α) :
    dget (dinsert d k v) k' = if k' = k then some v else dget d k' := by
  induction d with
  | nil =>
    by_cases h : k' = k
    · subst h; simp [dget, dinsert]
    · have h2 : ¬(k = k') := fun hh => h hh.symm
      simp [dget, dinsert, h, h2]
  | cons p t ih =>
    obtain ⟨a, b⟩ := p
    by_cases hak : a = k
    · subst hak
      by_cases h : k' = a
      · subst h; simp [dget, dinsert]
      · have h2 : ¬(a = k') := fun hh => h hh.symm
        simp [dget, dinsert, h, h2]
    · by_cases h : k' = a
      · subst h
        have h2 : ¬(k' = k) := fun hh => hak (hh ▸ rfl)
        simp [dget, dinsert, hak, h2]
      · have h2 : ¬(a = k') := fun hh => h hh.symm
        simp [dget, dinsert, hak, h2, ih]

theorem dget_dinsert_self {α : Type} (d : List (String × α)) (k : String) (v : α) :
    dget (dinsert d k v) k = some v := by
  simp [dget_dinsert]

theorem dget_dinsert_ne {α : Type} (d : List (String × α)) (k k' : String) (v : α)
    (h : k' ≠ k) : dget (dinsert d k v) k' = dget d k' := by
  simp [dget_dinsert, h]

theorem dinsert_of_dget_eq {α : Type} (d : List (String × α)) (k : String) (v : α)
    (h : dget d k = some v) : dinsert d k v = d := by
  induction d with
  | nil => simp [dget] at h
  | cons p t ih =>
    obtain ⟨a, b⟩ := p
    by_cases hak : a = k
    · subst hak
      simp [dget] at h
      simp [dinsert, h]
    · simp [dget, hak] at h
      simp [dinsert, hak, ih h]

theorem dinsert_dinsert {α : Type} (d : List (String × α)) (k : String) (v w : α) :
    dinsert (dinsert d k v) k w = dinsert d k w := by
  induction d with
  | nil => simp [dinsert]
  | cons p t ih =>
    obtain ⟨a, b⟩ := p
    by_cases hak : a = k
    · subst hak
      simp [dinsert]
    · simp [dinsert, hak, ih]

theorem dinsert_comm {α : Type} (d : List (String × α)) (k k' : String) (v w : α)
    (hne : k ≠ k') (hk : (dget d k).isSome) :
    dinsert (dinsert d k v) k' w = dinsert (dinsert d k' w) k v := by
  induction d with
  | nil => simp [dget] at hk
  | cons p t ih =>
    obtain ⟨a, b⟩ := p
    by_cases hak : a = k
    · subst hak
      simp [dinsert, hne, Ne.symm hne]
    · by_cases hak' : a = k'
      · subst hak'
        simp [dinsert, hne, Ne.symm hne, hak]
      · simp [dget, hak] at hk
        simp [dinsert, hak, hak', ih hk]

theorem dget_applyUpd_not_mem {α : Type} (ps d : List (String × α)) (k : String)
    (h : ∀ p ∈ ps, p.1 ≠ k) : dget (applyUpd ps d) k = dget d k := by
  induction ps generalizing d with
  | nil => rfl
  | cons p t ih =>
    have h0 : p.1 ≠ k := h p (by simp)
    have ht : ∀ q ∈ t, q.1 ≠ k := fun q hq => h q (by simp [hq])
    rw [applyUpd_cons, ih _ ht, dget_dinsert_ne _ _ _ _ (Ne.symm h0)]

theorem isSome_dget_applyUpd {α : Type} (ps d : List (String × α)) (k : String)
    (h : (dget d k).isSome) : (dget (applyUpd ps d) k).isSome := by
  induction ps generalizing d with
  | nil => exact h
  | cons p t ih =>
    rw [applyUpd_cons]
    refine ih (dinsert d p.1 p.2) ?_
    by_cases hk : k = p.1
    · subst hk
      simp [dget_dinsert_self]
    · rwa [dget_dinsert_ne _ _ _ _ hk]

theorem applyUpd_dinsert_mem {α : Type} (ps d : List (String × α)) (k : String)
    (v : α) (hk : (dget d k).isSome) (hmem : k ∈ ps.map Prod.fst) :
    applyUpd ps (dinsert d k v) = applyUpd ps d := by
  induction ps generalizing d v with
  | nil => simp at hmem
  | cons p t ih =>
    rw [applyUpd_cons, applyUpd_cons]
    by_cases h1 : p.1 = k
    · rw [show p.1 = k from h1, dinsert_dinsert]
    · have hmem' : k ∈ t.map Prod.fst := by
        simp only [List.map_cons, List.mem_cons] at hmem
        exact hmem.resolve_left (fun hh => h1 (hh ▸ rfl))
      rw [dinsert_comm d k p.1 v p.2 (fun hh => h1 hh.symm) hk]
      exact ih (dinsert d p.1 p.2) v
        (by
          by_cases hkp : k = p.1
          · exact absurd hkp.symm h1
          · rwa [dget_dinsert_ne _ _ _ _ hkp]) hmem'

theorem applyUpd_idem {α : Type} (ps d : List (String × α)) :
    applyUpd ps (applyUpd ps d) = applyUpd ps d := by
  induction ps generalizing d with
  | nil => rfl
  | cons p t ih =>
    rw [applyUpd_cons, applyUpd_cons]
    set d' := dinsert d p.1 p.2 with hd'
    by_cases hmem : p.1 ∈ t.map Prod.fst
    · have hsome : (dget (applyUpd t d') p.1).isSome :=
        isSome_dget_applyUpd t d' p.1 (by simp [hd', dget_dinsert_self])
      calc applyUpd t (dinsert (applyUpd t d') p.1 p.2)
          = applyUpd t (applyUpd t d') := applyUpd_dinsert_mem t _ _ _ hsome hmem
        _ = applyUpd t d' := ih d'
    · have hne : ∀ q ∈ t, q.1 ≠ p.1 := by
        intro q hq heq
        exact hmem (heq ▸ List.mem_map_of_mem Prod.fst hq)
      have hget : dget (applyUpd t d') p.1 = some p.2 := by
        rw [dget_applyUpd_not_mem t d' p.1 hne, hd', dget_dinsert_self]
      rw [dinsert_of_dget_eq _ _ _ hget]
      exact ih d'

theorem dget_dupsert {α : Type} (d : List (String × α)) (k k' : String)
    (f : α → α) (d0 : α) :
    dget (dupsert d k f d0) k' =
      if k' = k then some (f ((dget d k).getD d0)) else dget d k' := by
  induction d with
  | nil =>
    by_cases h : k' = k
    · subst h; simp [dget, dupsert]
    · have h2 : ¬(k = k') := fun hh => h hh.symm
      simp [dget, dupsert, h, h2]
  | cons p t ih =>
    obtain ⟨a, b⟩ := p
    by_cases hak : a = k
    · subst hak
      by_cases h : k' = a
      · subst h; simp [dget, dupsert]
      · have h2 : ¬(a = k') := fun hh => h hh.symm
        simp [dget, dupsert, h, h2]
    · by_cases h : k' = a
      · subst h
        have h2 : ¬(k' = k) := fun hh => hak (hh ▸ rfl)
        simp [dget, dupsert, hak, h2]
      · have h2 : ¬(a = k') := fun hh => h hh.symm
        simp [dget, dupsert, hak, h2, ih]

theorem mem_dinsert {α : Type} (d : List (String × α)) (k : String) (v : α)
    (q : String × α) (h : q ∈ dinsert d k v) : q = (k, v) ∨ q ∈ d := by
  induction d with
  | nil => simp [dinsert] at h; simp [h]
  | cons p t ih =>
    obtain ⟨a, b⟩ := p
    by_cases hak : a = k
    · subst hak
      simp [dinsert] at h
      rcases h with h | h
      · exact Or.inl (by simp [h])
      · exact Or.inr (by simp [h])
    · simp [dinsert, hak] at h
      rcases h with h | h
      · exact Or.inr (by simp [h])
      · rcases ih h with h2 | h2
        · exact Or.inl h2
        · exact Or.inr (by simp [h2])

/-! ## Cross-Table Joiner lemmas -/

/-- The only sections the combined map ever stores. -/
def secPred (s : String) : Prop :=
  s = "striking" ∨ s = "clinch" ∨ s = "ground"

theorem foldPayload_cons (section_ : String) (kv : String × SectionRow)
    (t : List (String × SectionRow)) (c : List (String × PyDict)) :
    foldPayload section_ (kv :: t) c =
      foldPayload section_ t (combInsert c (eidOrKey kv.2 kv.1) section_ kv.2.metrics) := rfl

theorem foldPayload_sections (section_ : String) (p : List (String × SectionRow))
    (c : List (String × PyDict)) (hsec : secPred section_)
    (hc : ∀ k secs, dget c k = some secs → ∀ q ∈ secs, secPred q.1) :
    ∀ k secs, dget (foldPayload section_ p c) k = some secs → ∀ q ∈ secs, secPred q.1 := by
  induction p generalizing c with
  | nil => exact hc
  | cons kv t ih =>
    rw [foldPayload_cons]
    refine ih _ ?_
    intro k secs hk q hq
    rw [combInsert, dget_dupsert] at hk
    by_cases hke : k = eidOrKey kv.2 kv.1
    · rw [if_pos hke] at hk
      injection hk with hk2
      subst hk2
      rcases mem_dinsert _ _ _ _ hq with h | h
      · rw [h]; exact hsec
      · cases hg : dget c (eidOrKey kv.2 kv.1) with
        | none => rw [hg] at h; simp at h
        | some inner => rw [hg] at h; exact hc _ _ hg q h
    · rw [if_neg hke] at hk
      exact hc _ _ hk q hq

theorem buildCombined_sections (S : Sections) (k : String) (secs : PyDict)
    (h : dget (buildCombined S) k = some secs) : ∀ q ∈ secs, secPred q.1 := by
  refine foldPayload_sections "ground" S.ground _ (by right; right; rfl) ?_ k secs h
  refine foldPayload_sections "clinch" S.clinch _ (by right; left; rfl) ?_
  refine foldPayload_sections "striking" S.striking _ (by left; rfl) ?_
  intro k' secs' hk'
  simp [dget] at hk'

theorem dget_applyUpd_secs (f : PyDict) (secs : PyDict)
    (hsecs : ∀ q ∈ secs, secPred q.1) (k : String)
    (hk : k ≠ "striking") (hk2 : k ≠ "clinch") (hk3 : k ≠ "ground") :
    dget (applyUpd secs f) k = dget f k := by
  refine dget_applyUpd_not_mem secs f k ?_
  intro q hq
  rcases hsecs q hq with h | h | h <;> rw [h]
  · exact fun hh => hk hh.symm
  · exact fun hh => hk2 hh.symm
  · exact fun hh => hk3 hh.symm

theorem joinKey_applyUpd_secs (f : PyDict) (secs : PyDict)
    (hsecs : ∀ q ∈ secs, secPred q.1) :
    joinKey (applyUpd secs f) = joinKey f := by
  unfold joinKey dgetD
  rw [dget_applyUpd_secs f secs hsecs "event_id" (by decide) (by decide) (by decide),
      dget_applyUpd_secs f secs hsecs "date" (by decide) (by decide) (by decide),
      dget_applyUpd_secs f secs hsecs "opponent" (by decide) (by decide) (by decide)]

theorem attachOne_attachOne (S : Sections) (f : PyDict) :
    attachOne (buildCombined S) (attachOne (buildCombined S) f) =
      attachOne (buildCombined S) f := by
  cases h : dget (buildCombined S) (joinKey f) with
  | none =>
    have h1 : attachOne (buildCombined S) f = f := by
      unfold attachOne
      rw [h]
    rw [h1, h1]
  | some secs =>
    have hsecs := buildCombined_sections S (joinKey f) secs h
    have h1 : attachOne (buildCombined S) f = applyUpd secs f := by
      unfold attachOne
      rw [h]
    rw [h1]
    unfold attachOne
    rw [joinKey_applyUpd_secs f secs hsecs, h]
    exact applyUpd_idem secs f

/-- C1: the Cross-Table Joiner is idempotent: for every list of fight-history
entries and every fixed sections payload, applying `_attach_stats_to_fights`
twice with the same payload yields a result identical to applying it once —
the second run overwrites the same section keys with identical values, with
no accumulation or duplication. -/
theorem claim_C1_attach_idempotent (fights : List PyDict) (S : Sections) :
    attachStats (attachStats fights S) S = attachStats fights S := by
  unfold attachStats
  rw [List.map_map]
  exact List.map_congr_left (fun f _ => attachOne_attachOne S f)

theorem mem_keys_dinsert {α : Type} (d : List (String × α)) (k x : String) (v : α) :
    x ∈ (dinsert d k v).map Prod.fst ↔ x = k ∨ x ∈ d.map Prod.fst := by
  induction d with
  | nil => simp [dinsert]
  | cons p t ih =>
    obtain ⟨a, b⟩ := p
    by_cases hak : a = k
    · subst hak
      simp [dinsert]
    · simp [dinsert, hak, ih]
      tauto

theorem nodup_keys_dinsert {α : Type} (d : List (String × α)) (k : String) (v : α)
    (h : (d.map Prod.fst).Nodup) : ((dinsert d k v).map Prod.fst).Nodup := by
  induction d with
  | nil => simp [dinsert]
  | cons p t ih =>
    obtain ⟨a, b⟩ := p
    simp only [List.map_cons, List.nodup_cons] at h
    by_cases hak : a = k
    · subst hak
      have hd : dinsert ((a, b) :: t) a v = (a, v) :: t := by simp [dinsert]
      rw [hd, List.map_cons]
      exact List.nodup_cons.mpr h
    · simp only [dinsert, if_neg hak, List.map_cons]
      refine List.nodup_cons.mpr ⟨?_, ih h.2⟩
      rw [mem_keys_dinsert]
      push_neg
      exact ⟨hak, h.1⟩

theorem foldPayload_inner_nodup (section_ : String) (p : List (String × SectionRow))
    (c : List (String × PyDict))
    (hc : ∀ k secs, dget c k = some secs → (secs.map Prod.fst).Nodup) :
    ∀ k secs, dget (foldPayload section_ p c) k = some secs →
      (secs.map Prod.fst).Nodup := by
  induction p generalizing c with
  | nil => exact hc
  | cons kv t ih =>
    rw [foldPayload_cons]
    refine ih _ ?_
    intro k secs hk
    rw [combInsert, dget_dupsert] at hk
    by_cases hke : k = eidOrKey kv.2 kv.1
    · rw [if_pos hke] at hk
      injection hk with hk2
      subst hk2
      cases hg : dget c (eidOrKey kv.2 kv.1) with
      | none => exact nodup_keys_dinsert _ _ _ (by simp)
      | some inner => exact nodup_keys_dinsert _ _ _ (by simpa using hc _ _ hg)
    · rw [if_neg hke] at hk
      exact hc _ _ hk

theorem buildCombined_inner_nodup (S : Sections) (k : String) (secs : PyDict)
    (h : dget (buildCombined S) k = some secs) : (secs.map Prod.fst).Nodup := by
  refine foldPayload_inner_nodup "ground" S.ground _ ?_ k secs h
  refine foldPayload_inner_nodup "clinch" S.clinch _ ?_
  refine foldPayload_inner_nodup "striking" S.striking _ ?_
  intro k' secs' hk'
  simp [dget] at hk'

theorem dget_applyUpd_nodup {α : Type} (secs f : List (String × α)) (k : String)
    (h : (secs.map Prod.fst).Nodup) :
    dget (applyUpd secs f) k =
      match dget secs k with
      | some v => some v
      | none => dget f k := by
  induction secs generalizing f with
  | nil => simp [applyUpd, dget]
  | cons q t ih =>
    obtain ⟨s0, v0⟩ := q
    simp only [List.map_cons, List.nodup_cons] at h
    rw [applyUpd_cons]
    by_cases hk : k = s0
    · subst hk
      have hnm : ∀ p ∈ t, p.1 ≠ k := by
        intro p hp heq
        exact h.1 (heq ▸ List.mem_map_of_mem Prod.fst hp)
      rw [dget_applyUpd_not_mem t _ k hnm]
      simp [dget, dget_dinsert_self]
    · rw [ih _ h.2]
      have hkne : ¬(s0 = k) := fun hh => hk hh.symm
      have hcons : dget ((s0, v0) :: t) k = dget t k := by
        rw [dget, if_neg hkne]
      rw [hcons]
      cases hdt : dget t k with
      | none => exact dget_dinsert_ne f s0 k v0 hk
      | some v => rfl

theorem lookupSec_foldPayload_ne (section_ sec' : String)
    (p : List (String × SectionRow)) (c : List (String × PyDict)) (k : String)
    (hne : sec' ≠ section_) :
    lookupSec (foldPayload section_ p c) k sec' = lookupSec c k sec' := by
  induction p generalizing c with
  | nil => rfl
  | cons kv t ih =>
    rw [foldPayload_cons, ih]
    unfold lookupSec
    rw [combInsert, dget_dupsert]
    by_cases hke : k = eidOrKey kv.2 kv.1
    · rw [if_pos hke]
      cases hg : dget c (eidOrKey kv.2 kv.1) with
      | none =>
        rw [hke, hg]
        simp [dget, Ne.symm hne]
      | some inner =>
        rw [hke, hg]
        simp [dget_dinsert_ne _ _ _ _ hne]
    · rw [if_neg hke]

theorem mem_of_dget_eq_some {α : Type} (d : List (String × α)) (k : String)
    (v : α) (h : dget d k = some v) : (k, v) ∈ d := by
  induction d with
  | nil => simp [dget] at h
  | cons q t ih =>
    obtain ⟨a, b⟩ := q
    rw [dget] at h
    by_cases hq : a = k
    · rw [if_pos hq] at h
      injection h with h2
      subst hq
      subst h2
      exact List.mem_cons_self _ _
    · rw [if_neg hq] at h
      exact List.mem_cons_of_mem (a, b) (ih h)

theorem dget_eq_none_of_not_mem {α : Type} (d : List (String × α)) (k : String)
    (h : k ∉ d.map Prod.fst) : dget d k = none := by
  cases hg : dget d k with
  | none => rfl
  | some v =>
    exact absurd (List.mem_map_of_mem Prod.fst (mem_of_dget_eq_some d k v hg)) h

theorem lookupSec_foldPayload_self (section_ : String)
    (p : List (String × SectionRow)) (c : List (String × PyDict)) (k : String)
    (hwf : ∀ kv ∈ p, eidOrKey kv.2 kv.1 = kv.1) (hnd : (p.map Prod.fst).Nodup) :
    lookupSec (foldPayload section_ p c) k section_ =
      match dget p k with
      | some row => some (PyVal.pdict row.metrics)
      | none => lookupSec c k section_ := by
  induction p generalizing c with
  | nil => simp [foldPayload, dget]
  | cons kv t ih =>
    obtain ⟨k0, row0⟩ := kv
    have hek : eidOrKey row0 k0 = k0 := hwf (k0, row0) (by simp)
    simp only [List.map_cons, List.nodup_cons] at hnd
    have hwt : ∀ kv ∈ t, eidOrKey kv.2 kv.1 = kv.1 := by
      intro kv hkv
      exact hwf kv (by simp [hkv])
    rw [foldPayload_cons]
    simp only [hek]
    rw [ih _ hwt hnd.2]
    by_cases hk : k = k0
    · subst hk
      rw [dget_eq_none_of_not_mem t k hnd.1]
      have hhead : dget ((k, row0) :: t) k = some row0 := by
        rw [dget, if_pos rfl]
      rw [hhead]
      unfold lookupSec
      rw [combInsert, dget_dupsert, if_pos rfl]
      simp [dget_dinsert_self]
    · have htail : dget ((k0, row0) :: t) k = dget t k := by
        rw [dget, if_neg (fun hh => hk hh.symm)]
      rw [htail]
      cases dget t k with
      | some row => rfl
      | none =>
        unfold lookupSec
        rw [combInsert, dget_dupsert, if_neg hk]

theorem lookupSec_build_striking (S : Sections) (k : String)
    (h1 : WFpayload S.striking) :
    lookupSec (buildCombined S) k "striking" =
      (dget S.striking k).map (fun row => PyVal.pdict row.metrics) := by
  unfold buildCombined
  rw [lookupSec_foldPayload_ne "ground" "striking" _ _ k (by decide),
      lookupSec_foldPayload_ne "clinch" "striking" _ _ k (by decide),
      lookupSec_foldPayload_self "striking" _ _ k h1.1 h1.2]
  cases dget S.striking k with
  | some row => rfl
  | none => simp [lookupSec, dget]

theorem lookupSec_build_clinch (S : Sections) (k : String)
    (h2 : WFpayload S.clinch) :
    lookupSec (buildCombined S) k "clinch" =
      (dget S.clinch k).map (fun row => PyVal.pdict row.metrics) := by
  unfold buildCombined
  rw [lookupSec_foldPayload_ne "ground" "clinch" _ _ k (by decide),
      lookupSec_foldPayload_self "clinch" _ _ k h2.1 h2.2]
  cases dget S.clinch k with
  | some row => rfl
  | none =>
    rw [lookupSec_foldPayload_ne "striking" "clinch" _ _ k (by decide)]
    simp [lookupSec, dget]

theorem lookupSec_build_ground (S : Sections) (k : String)
    (h3 : WFpayload S.ground) :
    lookupSec (buildCombined S) k "ground" =
      (dget S.ground k).map (fun row => PyVal.pdict row.metrics) := by
  unfold buildCombined
  rw [lookupSec_foldPayload_self "ground" _ _ k h3.1 h3.2]
  cases dget S.ground k with
  | some row => rfl
  | none =>
    rw [lookupSec_foldPayload_ne "clinch" "ground" _ _ k (by decide),
        lookupSec_foldPayload_ne "striking" "ground" _ _ k (by decide)]
    simp [lookupSec, dget]

theorem dget_attachOne_of_lookup (S : Sections) (f : PyDict) (sec : String)
    (p : List (String × SectionRow))
    (hlk : lookupSec (buildCombined S) (joinKey f) sec =
      (dget p (joinKey f)).map (fun row => PyVal.pdict row.metrics)) :
    dget (attachOne (buildCombined S) f) sec =
      match dget p (joinKey f) with
      | some row => some (PyVal.pdict row.metrics)
      | none => dget f sec := by
  cases h : dget (buildCombined S) (joinKey f) with
  | none =>
    have hn : (dget p (joinKey f)).map (fun row => PyVal.pdict row.metrics) = none := by
      rw [← hlk]
      simp [lookupSec, h]
    cases hp : dget p (joinKey f) with
    | some row => rw [hp] at hn; simp at hn
    | none =>
      unfold attachOne
      rw [h]
  | some secs =>
    have hnd := buildCombined_inner_nodup S (joinKey f) secs h
    unfold attachOne
    rw [h, dget_applyUpd_nodup secs f sec hnd]
    have hs : dget secs sec =
        (dget p (joinKey f)).map (fun row => PyVal.pdict row.metrics) := by
      rw [← hlk]
      simp [lookupSec, h]
    rw [hs]
    cases dget p (joinKey f) with
    | some row => rfl
    | none => rfl

theorem attachOne_unchanged (S : Sections) (f : PyDict)
    (h1 : WFpayload S.striking) (h2 : WFpayload S.clinch) (h3 : WFpayload S.ground)
    (hs : dget S.striking (joinKey f) = none)
    (hc : dget S.clinch (joinKey f) = none)
    (hg : dget S.ground (joinKey f) = none) :
    attachOne (buildCombined S) f = f := by
  cases h : dget (buildCombined S) (joinKey f) with
  | none =>
    unfold attachOne
    rw [h]
  | some secs =>
    cases hsecs : secs with
    | nil =>
      unfold attachOne
      rw [h, hsecs]
      rfl
    | cons q t =>
      exfalso
      subst hsecs
      obtain ⟨a, b⟩ := q
      have hq := buildCombined_sections S (joinKey f) _ h (a, b) (by simp)
      have hfirst : dget ((a, b) :: t) a = some b := by
        rw [dget, if_pos rfl]
      have hlks : lookupSec (buildCombined S) (joinKey f) a = some b := by
        simp [lookupSec, h, hfirst]
      rcases hq with ha | ha | ha
      · replace ha : a = "striking" := ha
        rw [ha] at hlks
        rw [lookupSec_build_striking S _ h1, hs] at hlks
        simp at hlks
      · replace ha : a = "clinch" := ha
        rw [ha] at hlks
        rw [lookupSec_build_clinch S _ h2, hc] at hlks
        simp at hlks
      · replace ha : a = "ground" := ha
        rw [ha] at hlks
        rw [lookupSec_build_ground S _ h3, hg] at hlks
        simp at hlks

/-- C2: for every fight-history entry processed by the Cross-Table Joiner
and every well-formed sections payload: the join key is `event_id` when
present and non-empty, else `"{date}|{opponent}"`; the entry's
striking/clinch/ground field after the join is that section's metrics
exactly when the section's payload contains the entry's join key (one
section's absence does not block another's attachment); an entry whose join
key appears in no section's payload is returned unchanged. -/
theorem claim_C2_attach_coverage (S : Sections) (f : PyDict)
    (h1 : WFpayload S.striking) (h2 : WFpayload S.clinch) (h3 : WFpayload S.ground) :
    (dget (attachOne (buildCombined S) f) "striking" =
      match dget S.striking (joinKey f) with
      | some row => some (PyVal.pdict row.metrics)
      | none => dget f "striking") ∧
    (dget (attachOne (buildCombined S) f) "clinch" =
      match dget S.clinch (joinKey f) with
      | some row => some (PyVal.pdict row.metrics)
      | none => dget f "clinch") ∧
    (dget (attachOne (buildCombined S) f) "ground" =
      match dget S.ground (joinKey f) with
      | some row => some (PyVal.pdict row.metrics)
      | none => dget f "ground") ∧
    (dget S.striking (joinKey f) = none → dget S.clinch (joinKey f) = none →
      dget S.ground (joinKey f) = none → attachOne (buildCombined S) f = f) ∧
    (joinKey f = if truthy (dgetD f "event_id") then pyStr (dgetD f "event_id")
      else pyStr (dgetD f "date") ++ "|" ++ pyStr (dgetD f "opponent")) := by
  refine ⟨?_, ?_, ?_, ?_, ?_⟩
  · exact dget_attachOne_of_lookup S f "striking" S.striking
      (lookupSec_build_striking S (joinKey f) h1)
  · exact dget_attachOne_of_lookup S f "clinch" S.clinch
      (lookupSec_build_clinch S (joinKey f) h2)
  · exact dget_attachOne_of_lookup S f "ground" S.ground
      (lookupSec_build_ground S (joinKey f) h3)
  · exact attachOne_unchanged S f h1 h2 h3
  · unfold joinKey
    by_cases h : truthy (dgetD f "event_id")
    · simp [h]
    · simp [h, pyStr]

/-- C3: the Cross-Table Joiner is additive only: after `attachOne`, every
key other than `striking`/`clinch`/`ground` (in particular every canonical
fight-history field) holds exactly the value it held before, and no key of
the entry is removed. -/
theorem claim_C3_attach_frame (S : Sections) (f : PyDict) :
    (∀ k, k ≠ "striking" → k ≠ "clinch" → k ≠ "ground" →
      dget (attachOne (buildCombined S) f) k = dget f k) ∧
    (∀ k ∈ canonicalFields,
      dget (attachOne (buildCombined S) f) k = dget f k) ∧
    (∀ k, (dget f k).isSome → (dget (attachOne (buildCombined S) f) k).isSome) := by
  have hmain : ∀ k, k ≠ "striking" → k ≠ "clinch" → k ≠ "ground" →
      dget (attachOne (buildCombined S) f) k = dget f k := by
    intro k hk1 hk2 hk3
    cases h : dget (buildCombined S) (joinKey f) with
    | none =>
      unfold attachOne
      rw [h]
    | some secs =>
      have hsecs := buildCombined_sections S (joinKey f) secs h
      unfold attachOne
      rw [h]
      exact dget_applyUpd_secs f secs hsecs k hk1 hk2 hk3
  refine ⟨hmain, ?_, ?_⟩
  · intro k hk
    fin_cases hk <;> exact hmain _ (by decide) (by decide) (by decide)
  · intro k hk
    cases h : dget (buildCombined S) (joinKey f) with
    | none =>
      unfold attachOne
      rw [h]
      exact hk
    | some secs =>
      unfold attachOne
      rw [h]
      exact isSome_dget_applyUpd secs f k hk

/-- Witness for C2: a concrete entry whose join key is present only in the
striking payload gains exactly that section's metrics. -/
theorem claim_C2_attach_coverage_witness :
    dget (attachOne
        (buildCombined ⟨[("600040", ⟨[("event_id", PyVal.pstr "600040")],
          [("TSL", PyVal.pstr "5")]⟩)], [], []⟩)
        [("date", PyVal.pstr "Jan 18"), ("event_id", PyVal.pstr "600040")])
      "striking" = some (PyVal.pdict [("TSL", PyVal.pstr "5")]) := by
  have h := (claim_C2_attach_coverage
    ⟨[("600040", ⟨[("event_id", PyVal.pstr "600040")], [("TSL", PyVal.pstr "5")]⟩)], [], []⟩
    [("date", PyVal.pstr "Jan 18"), ("event_id", PyVal.pstr "600040")]
    (by decide) (by decide) (by decide)).1
  rw [h]
  rfl

/-- Witness for C3: a concrete canonical field survives the attach
operation unchanged. -/
theorem claim_C3_attach_frame_witness :
    dget (attachOne
        (buildCombined ⟨[("600040", ⟨[("event_id", PyVal.pstr "600040")],
          [("TSL", PyVal.pstr "5")]⟩)], [], []⟩)
        [("date", PyVal.pstr "Jan 18"), ("event_id", PyVal.pstr "600040")])
      "date" = some (PyVal.pstr "Jan 18") := by
  have h := (claim_C3_attach_frame
    ⟨[("600040", ⟨[("event_id", PyVal.pstr "600040")], [("TSL", PyVal.pstr "5")]⟩)], [], []⟩
    [("date", PyVal.pstr "Jan 18"), ("event_id", PyVal.pstr "600040")]).1
    "date" (by decide) (by decide) (by decide)
  rw [h]
  rfl

/-! ## Header map (C4) -/

theorem lastIdx_cons (h : String) (t : List String) (k : String) :
    lastIdx (h :: t) k =
      match lastIdx t k with
      | some n => some (n + 1)
      | none => if h = k then some 0 else none := rfl

theorem dget_headerMapAux (hs : List String) (i0 : Nat) (d : List (String × Nat))
    (k : String) :
    dget (headerMapAux i0 hs d) k =
      match lastIdx hs k with
      | some n => some (i0 + n)
      | none => dget d k := by
  induction hs generalizing i0 d with
  | nil => rfl
  | cons h t ih =>
    rw [headerMapAux, ih, lastIdx_cons]
    cases hlt : lastIdx t k with
    | some n =>
      simp only [hlt]
      congr 1
      omega
    | none =>
      simp only [hlt]
      by_cases hk : h = k
      · rw [if_pos hk, hk, dget_dinsert_self]
        simp
      · rw [if_neg hk, dget_dinsert_ne _ _ _ _ (fun hh => hk hh.symm)]

theorem lastIdx_eq_none (hs : List String) (k : String)
    (h : ∀ x ∈ hs, x ≠ k) : lastIdx hs k = none := by
  induction hs with
  | nil => rfl
  | cons x t ih =>
    rw [lastIdx_cons, ih (fun y hy => h y (by simp [hy]))]
    simp only [if_neg (h x (by simp))]

theorem lastIdx_eq_some (hs : List String) (k : String) (j : Nat)
    (hj : j < hs.length) (hkey : hs.get ⟨j, hj⟩ = k)
    (hlast : ∀ l (hl : l < hs.length), j < l → hs.get ⟨l, hl⟩ ≠ k) :
    lastIdx hs k = some j := by
  induction hs generalizing j with
  | nil => simp at hj
  | cons h t ih =>
    cases j with
    | zero =>
      have htail : ∀ x ∈ t, x ≠ k := by
        intro x hx hxk
        obtain ⟨i, hgi⟩ := List.mem_iff_get.mp hx
        refine hlast (i.val + 1) (Nat.succ_lt_succ i.isLt) (Nat.succ_pos _) ?_
        show t.get ⟨i.val, i.isLt⟩ = k
        rw [show t.get ⟨i.val, i.isLt⟩ = t.get i from rfl, hgi, hxk]
      rw [lastIdx_cons, lastIdx_eq_none t k htail]
      simp only [if_pos (show h = k from hkey)]
    | succ jj =>
      have hjj : jj < t.length := Nat.lt_of_succ_lt_succ hj
      have hkey' : t.get ⟨jj, hjj⟩ = k := hkey
      have hlast' : ∀ l (hl : l < t.length), jj < l → t.get ⟨l, hl⟩ ≠ k := by
        intro l hl hgt hlk
        exact hlast (l + 1) (Nat.succ_lt_succ hl) (Nat.succ_lt_succ hgt) hlk
      rw [lastIdx_cons, ih jj hjj hkey' hlast']

/-- C4 counterexample: a table whose header row repeats the same
lower-cased cleaned text `"a"` maps it to column index 1 — the last
occurrence — not to the first occurrence's index 0 the claim states. -/
theorem claim_C4_counterexample :
    dget (headerMap ["a", "a"]) "a" = some 1 ∧
    dget (headerMap ["a", "a"]) "a" ≠ some 0 := by
  decide

/-- C4 amended: for every table whose header row contains duplicate
lower-cased cleaned texts, the header map keeps the LAST occurrence's
column index for that text (the dict comprehension lets later duplicates
overwrite earlier ones). -/
theorem claim_C4_header_map_last_wins (ths : List String) (k : String) (j : Nat)
    (hj : j < ths.length)
    (hkey : headerKey (ths.get ⟨j, hj⟩) = k)
    (hlast : ∀ l (hl : l < ths.length), j < l → headerKey (ths.get ⟨l, hl⟩) ≠ k) :
    dget (headerMap ths) k = some j := by
  unfold headerMap
  rw [dget_headerMapAux]
  have hmem : lastIdx (ths.map headerKey) k = some j := by
    refine lastIdx_eq_some _ k j (by simpa using hj) ?_ ?_
    · rw [List.get_map]
      exact hkey
    · intro l hl hgt
      rw [List.get_map]
      exact hlast l (by simpa using hl) hgt
  rw [hmem]
  simp

/-- Witness for the amended C4 at a concrete duplicated header row. -/
theorem claim_C4_header_map_last_wins_witness :
    dget (headerMap ["a", "b", "a", "b"]) "a" = some 2 := by
  refine claim_C4_header_map_last_wins ["a", "b", "a", "b"] "a" 2 (by decide)
    (by decide) ?_
  intro l hl hgt
  have : l = 3 := by
    simp only [List.length_cons, List.length_nil] at hl
    omega
  subst this
  show headerKey "b" ≠ "a"
  decide

/-! ## Fraction parser (C5) -/

theorem takeWhile_append_all (p : Char → Bool) (a b : List Char)
    (ha : ∀ c ∈ a, p c = true) :
    (a ++ b).takeWhile p = a ++ b.takeWhile p := by
  induction a with
  | nil => simp
  | cons c t ih =>
    have hc : p c = true := ha c (by simp)
    simp only [List.cons_append, List.takeWhile_cons, hc, if_true]
    rw [ih (fun x hx => ha x (by simp [hx]))]

theorem dropWhile_append_all (p : Char → Bool) (a b : List Char)
    (ha : ∀ c ∈ a, p c = true) :
    (a ++ b).dropWhile p = b.dropWhile p := by
  induction a with
  | nil => simp
  | cons c t ih =>
    have hc : p c = true := ha c (by simp)
    simp only [List.cons_append, List.dropWhile_cons, hc, if_true]
    exact ih (fun x hx => ha x (by simp [hx]))

theorem takeWhile_all (p : Char → Bool) (l : List Char)
    (h : ∀ c ∈ l, p c = true) : l.takeWhile p = l := by
  have := takeWhile_append_all p l [] h
  simpa using this

theorem mem_pyStrip (l : List Char) (c : Char) (h : c ∈ pyStrip l) : c ∈ l := by
  unfold pyStrip at h
  rw [List.mem_reverse] at h
  have h2 := (List.dropWhile_sublist pyIsWS).subset h
  rw [List.mem_reverse] at h2
  exact (List.dropWhile_sublist pyIsWS).subset h2

theorem fracSearch_eq_none (l : List Char)
    (h : ∀ c ∈ l, isDigitC c = false) : fracSearch l = none := by
  induction l with
  | nil => rfl
  | cons c t ih =>
    rw [fracSearch, if_neg (by simp [h c (by simp)])]
    exact ih (fun x hx => h x (by simp [hx]))

theorem isDigitC_not_ws (c : Char) (h : isDigitC c = true) : pyIsWS c = false := by
  simp only [isDigitC, Bool.and_eq_true, decide_eq_true_eq] at h
  simp only [pyIsWS, Bool.or_eq_false_iff, decide_eq_false_iff_not]
  omega

theorem pyStrip_eq_self (l : List Char)
    (hhead : ∀ c ∈ l.head?, pyIsWS c = false)
    (hlast : ∀ c ∈ l.getLast?, pyIsWS c = false) : pyStrip l = l := by
  unfold pyStrip
  have h1 : l.dropWhile pyIsWS = l := by
    cases l with
    | nil => rfl
    | cons c t =>
      rw [List.dropWhile_cons, if_neg (by simp [hhead c (by simp)])]
  rw [h1]
  have h2 : l.reverse.dropWhile pyIsWS = l.reverse := by
    cases hr : l.reverse with
    | nil => rfl
    | cons c t =>
      have hc : c ∈ l.getLast? := by
        rw [← List.head?_reverse, hr]
        simp
      rw [List.dropWhile_cons, if_neg (by simp [hlast c hc])]
  rw [h2, List.reverse_reverse]

/-- C5 counterexample: the malformed text `"a1"` (neither `"N of M"`, nor a
bare integer, nor the placeholder, nor empty) yields `(1, 1)`, not the
`(0, 0)` the claim states. -/
theorem claim_C5_counterexample :
    parseStatFraction "a1" = (1, 1) ∧ parseStatFraction "a1" ≠ (0, 0) := by
  decide

theorem fracSearch_decomp (pre ds rest : List Char)
    (hpre : ∀ c ∈ pre, isDigitC c = false) (hds : ds ≠ [])
    (hdig : ∀ c ∈ ds, isDigitC c = true)
    (hrest : ∀ c ∈ rest.head?, isDigitC c = false) :
    fracSearch (pre ++ ds ++ rest) = some (ds, rest) := by
  induction pre with
  | nil =>
    obtain ⟨d0, ds2, rfl⟩ := List.exists_cons_of_ne_nil hds
    rw [List.nil_append, List.cons_append, fracSearch,
      if_pos (hdig d0 (by simp)), ← List.cons_append,
      takeWhile_append_all _ _ _ hdig, dropWhile_append_all _ _ _ hdig]
    cases rest with
    | nil => simp
    | cons r rs =>
      have hr : isDigitC r = false := hrest r (by simp)
      rw [List.takeWhile_cons, if_neg (by simp [hr]), List.dropWhile_cons,
        if_neg (by simp [hr]), List.append_nil]
  | cons p pre' ih =>
    have hp : isDigitC p = false := hpre p (by simp)
    rw [List.cons_append, List.cons_append, fracSearch, if_neg (by simp [hp])]
    exact ih (fun c hc => hpre c (by simp [hc]))

/-- C5 amended: `_parse_stat_fraction` returns `(N, M)` on `"N of M"`,
`(N, N)` on a bare digit run `"N"`, `(0, 0)` on the placeholder `"---"` or
empty text, and `(0, 0)` on any text containing no digit; EVERY other text
containing a digit is parsed from its first (maximal) digit run `N`,
yielding `(N, M)` when a whitespace-`of`-whitespace-`M` group immediately
follows and `(N, N)` otherwise; the function is total (never raises). -/
theorem claim_C5_parse_fraction_amended :
    (∀ ds ms : List Char, ds ≠ [] → ms ≠ [] → (∀ c ∈ ds, isDigitC c = true) →
      (∀ c ∈ ms, isDigitC c = true) →
      parseStatFraction (String.mk (ds ++ ' ' :: 'o' :: 'f' :: ' ' :: ms)) =
        (natOfDigits ds, natOfDigits ms)) ∧
    (∀ ds : List Char, ds ≠ [] → (∀ c ∈ ds, isDigitC c = true) →
      parseStatFraction (String.mk ds) = (natOfDigits ds, natOfDigits ds)) ∧
    parseStatFraction "---" = (0, 0) ∧
    parseStatFraction "" = (0, 0) ∧
    (∀ s : String, (∀ c ∈ s.data, isDigitC c = false) →
      parseStatFraction s = (0, 0)) ∧
    (∀ s : String, ∀ pre ds rest : List Char, s ≠ "" →
      String.mk (pyStrip s.data) ≠ "---" →
      pyStrip s.data = pre ++ ds ++ rest →
      (∀ c ∈ pre, isDigitC c = false) → ds ≠ [] →
      (∀ c ∈ ds, isDigitC c = true) →
      (∀ c ∈ rest.head?, isDigitC c = false) →
      parseStatFraction s =
        (natOfDigits ds,
         match ofGroup rest with
         | some ms => natOfDigits ms
         | none => natOfDigits ds)) := by
  refine ⟨?_, ?_, by decide, by decide, ?_, ?_⟩
  · intro ds ms hds hms hdig hmdig
    obtain ⟨d0, ds', rfl⟩ := List.exists_cons_of_ne_nil hds
    obtain ⟨m0, ms', rfl⟩ := List.exists_cons_of_ne_nil hms
    set l := (d0 :: ds') ++ ' ' :: 'o' :: 'f' :: ' ' :: m0 :: ms' with hl
    have hstrip : pyStrip l = l := by
      refine pyStrip_eq_self l ?_ ?_
      · intro c hc
        simp only [hl, List.cons_append, List.head?_cons, Option.mem_def,
          Option.some.injEq] at hc
        rw [← hc]
        exact isDigitC_not_ws d0 (hdig d0 (by simp))
      · intro c hc
        have hg : l.getLast? = (m0 :: ms').getLast? := by
          rw [hl, List.getLast?_append, List.getLast?_cons_cons,
            List.getLast?_cons_cons, List.getLast?_cons_cons,
            List.getLast?_cons_cons]
          cases hgl : (m0 :: ms').getLast? with
          | none =>
            have h5 : (m0 :: ms').getLast?.isSome := List.getLast?_isSome.mpr (by simp)
            rw [hgl] at h5
            simp at h5
          | some x => rfl
        rw [hg] at hc
        have hm : c ∈ m0 :: ms' := List.mem_of_mem_getLast? hc
        exact isDigitC_not_ws c (hmdig c hm)
    unfold parseStatFraction
    rw [show (String.mk l).data = l from rfl, hstrip]
    have hne1 : ¬(String.mk l = "") := by
      intro hc
      have h4 : l = [] := congrArg String.data hc
      simp [hl] at h4
    have hne2 : ¬(String.mk l = "---") := by
      intro hc
      have h3 : l = ['-', '-', '-'] := congrArg String.data hc
      have hd0 : d0 = '-' := by
        rw [hl] at h3
        exact (List.cons.injEq _ _ _ _).mp h3 |>.1
      have hd := hdig d0 (by simp)
      rw [hd0] at hd
      simp [isDigitC] at hd
    rw [if_neg (by simp [hne1, hne2])]
    have e3 : isDigitC ' ' = false := by decide
    have hsearch : fracSearch l =
        some (d0 :: ds', ' ' :: 'o' :: 'f' :: ' ' :: m0 :: ms') := by
      rw [hl, List.cons_append, fracSearch, if_pos (hdig d0 (by simp))]
      rw [← List.cons_append]
      rw [takeWhile_append_all _ _ _ hdig, dropWhile_append_all _ _ _ hdig]
      rw [List.takeWhile_cons, if_neg (by simp [e3]), List.append_nil]
      rw [List.dropWhile_cons, if_neg (by simp [e3])]
    rw [hsearch]
    have e1 : pyIsWS ' ' = true := by decide
    have e2 : pyIsWS 'o' = false := by decide
    have hm0 : pyIsWS m0 = false := isDigitC_not_ws m0 (hmdig m0 (by simp))
    have hmne : (m0 :: ms').takeWhile isDigitC = m0 :: ms' :=
      takeWhile_all _ _ hmdig
    have hdw : (m0 :: ms').dropWhile pyIsWS = m0 :: ms' := by
      rw [List.dropWhile_cons, if_neg (by simp [hm0])]
    have hof : ofGroup (' ' :: 'o' :: 'f' :: ' ' :: m0 :: ms') = some (m0 :: ms') := by
      show (if (((m0 :: ms').dropWhile pyIsWS).takeWhile isDigitC).isEmpty = true
            then none
            else some (((m0 :: ms').dropWhile pyIsWS).takeWhile isDigitC)) =
          some (m0 :: ms')
      rw [hdw, hmne]
      simp
    show (match ofGroup (' ' :: 'o' :: 'f' :: ' ' :: m0 :: ms') with
          | some ms2 => (natOfDigits (d0 :: ds'), natOfDigits ms2)
          | none => (natOfDigits (d0 :: ds'), natOfDigits (d0 :: ds'))) =
        (natOfDigits (d0 :: ds'), natOfDigits (m0 :: ms'))
    rw [hof]
  · intro ds hds hdig
    obtain ⟨d0, ds', rfl⟩ := List.exists_cons_of_ne_nil hds
    have hstrip : pyStrip (d0 :: ds') = d0 :: ds' := by
      refine pyStrip_eq_self _ ?_ ?_
      · intro c hc
        simp only [List.head?_cons, Option.mem_def, Option.some.injEq] at hc
        rw [← hc]
        exact isDigitC_not_ws d0 (hdig d0 (by simp))
      · intro c hc
        have hm : c ∈ d0 :: ds' := List.mem_of_mem_getLast? hc
        exact isDigitC_not_ws c (hdig c hm)
    unfold parseStatFraction
    rw [show (String.mk (d0 :: ds')).data = d0 :: ds' from rfl, hstrip]
    have hne1 : ¬(String.mk (d0 :: ds') = "") := by
      intro hc
      have h4 : d0 :: ds' = ([] : List Char) := congrArg String.data hc
      simp at h4
    have hne2 : ¬(String.mk (d0 :: ds') = "---") := by
      intro hc
      have h3 : d0 :: ds' = ['-', '-', '-'] := congrArg String.data hc
      have : d0 = '-' := (List.cons.injEq _ _ _ _).mp h3 |>.1
      have hd := hdig d0 (by simp)
      rw [this] at hd
      simp [isDigitC] at hd
    rw [if_neg (by simp [hne1, hne2])]
    have hsearch : fracSearch (d0 :: ds') = some (d0 :: ds', []) := by
      rw [fracSearch, if_pos (hdig d0 (by simp))]
      rw [takeWhile_all _ _ hdig]
      have : (d0 :: ds').dropWhile isDigitC = [] := by
        have := dropWhile_append_all isDigitC (d0 :: ds') [] hdig
        simpa using this
      rw [this]
    rw [hsearch]
    rfl
  · intro s hnod
    unfold parseStatFraction
    by_cases h1 : s = "" ∨ String.mk (pyStrip s.data) = "---"
    · rw [if_pos (by simpa using h1)]
    · rw [if_neg (by simpa using h1)]
      have : fracSearch (pyStrip s.data) = none := by
        refine fracSearch_eq_none _ ?_
        intro c hc
        exact hnod c (mem_pyStrip _ _ hc)
      rw [this]
  · intro s pre ds rest hne hne3 hdec hpre hds hdig hrest
    unfold parseStatFraction
    rw [if_neg (by simp [hne, hne3]), hdec,
      fracSearch_decomp pre ds rest hpre hds hdig hrest]
    show (match ofGroup rest with
          | some ms => (natOfDigits ds, natOfDigits ms)
          | none => (natOfDigits ds, natOfDigits ds)) = _
    cases hog : ofGroup rest with
    | some ms => rfl
    | none => rfl

/-- Witness for the amended C5 at the spec's examples plus a malformed
text whose first digit run sits between non-digit context. -/
theorem claim_C5_parse_fraction_amended_witness :
    parseStatFraction "96 of 119" = (96, 119) ∧
    parseStatFraction "zz" = (0, 0) ∧
    parseStatFraction "a12 of 5x" = (12, 5) := by
  refine ⟨?_, ?_, ?_⟩
  · have h := claim_C5_parse_fraction_amended.1 ['9', '6'] ['1', '1', '9']
      (by decide) (by decide) (by decide) (by decide)
    exact h
  · exact claim_C5_parse_fraction_amended.2.2.2.2.1 "zz" (by decide)
  · have h := claim_C5_parse_fraction_amended.2.2.2.2.2 "a12 of 5x"
      ['a'] ['1', '2'] [' ', 'o', 'f', ' ', '5', 'x'] (by decide) (by decide)
      (by decide) (by decide) (by decide) (by decide) (by decide)
    exact h

/-! ## Schedule-date parser (C6) -/

theorem isAlphaC_not_ws (c : Char) (h : isAlphaC c = true) : pyIsWS c = false := by
  simp only [isAlphaC, Bool.or_eq_true, Bool.and_eq_true, decide_eq_true_eq] at h
  simp only [pyIsWS, Bool.or_eq_false_iff, decide_eq_false_iff_not]
  omega

/-- C6 counterexample: on empty input `_parse_schedule_date` returns `None`
(no value), not the cleaned original text the claim states. -/
theorem claim_C6_counterexample :
    parseScheduleDate "" 2024 = none ∧
    parseScheduleDate "" 2024 ≠ some (cleanText "") := by
  decide

/-- C6 amended: `_parse_schedule_date` builds `"YYYY-MM-DD"` from the
caller-supplied year whenever the STRIPPED text starts with three letters
recognized as a month abbreviation, a whitespace run, and a 1-2 digit
(greedy) day — trailing content and multi-character whitespace included;
on a mismatch or an unrecognized month it returns the cleaned original
text; on EMPTY input it returns `None` rather than the cleaned text; it
never fails. -/
theorem claim_C6_schedule_date_amended :
    (∀ s : String, ∀ year : Nat, ∀ c1 c2 c3 : Char, ∀ ws ds rest : List Char,
      ∀ mon : Nat, s ≠ "" →
      pyStrip s.data = c1 :: c2 :: c3 :: (ws ++ ds ++ rest) →
      isAlphaC c1 = true → isAlphaC c2 = true → isAlphaC c3 = true →
      ws ≠ [] → (∀ c ∈ ws, pyIsWS c = true) →
      ds ≠ [] → (∀ c ∈ ds, isDigitC c = true) →
      (ds.length = 2 ∨ (ds.length = 1 ∧ ∀ c ∈ rest.head?, isDigitC c = false)) →
      dget monthsTable (String.mk (pyTitle [c1, c2, c3])) = some mon →
      parseScheduleDate s year =
        some (padZeros 4 year ++ "-" ++ padZeros 2 mon ++ "-" ++
              padZeros 2 (natOfDigits ds))) ∧
    (∀ s : String, ∀ year : Nat, s ≠ "" →
      scheduleMatch (pyStrip s.data) = none →
      parseScheduleDate s year = some (cleanText s)) ∧
    (∀ s : String, ∀ year : Nat, ∀ mon3 ds : List Char, s ≠ "" →
      scheduleMatch (pyStrip s.data) = some (mon3, ds) →
      dget monthsTable (String.mk (pyTitle mon3)) = none →
      parseScheduleDate s year = some (cleanText s)) ∧
    (∀ year : Nat, parseScheduleDate "" year = none) := by
  refine ⟨?_, ?_, ?_, fun year => rfl⟩
  · intro s year c1 c2 c3 ws ds rest mon hne hdec ha1 ha2 ha3 hwsne hws hdsne
      hdig hlen hmon
    obtain ⟨w0, ws', rfl⟩ := List.exists_cons_of_ne_nil hwsne
    obtain ⟨d0, ds2, rfl⟩ := List.exists_cons_of_ne_nil hdsne
    have hd0 : isDigitC d0 = true := hdig d0 (by simp)
    have hd0w : pyIsWS d0 = false := isDigitC_not_ws d0 hd0
    rcases hlen with h2 | ⟨h1, hrne⟩
    · obtain ⟨d1, hds2⟩ : ∃ d1, ds2 = [d1] := by
        cases ds2 with
        | nil => simp at h2
        | cons a t =>
          cases t with
          | nil => exact ⟨a, rfl⟩
          | cons b u => simp at h2
      subst hds2
      have hd1 : isDigitC d1 = true := hdig d1 (by simp)
      have htk : ((w0 :: ws') ++ [d0, d1] ++ rest).takeWhile pyIsWS =
          w0 :: ws' := by
        rw [List.append_assoc, takeWhile_append_all _ _ _ hws]
        show (w0 :: ws') ++ (d0 :: d1 :: rest).takeWhile pyIsWS = w0 :: ws'
        rw [List.takeWhile_cons, if_neg (by simp [hd0w]), List.append_nil]
      have hdw : ((w0 :: ws') ++ [d0, d1] ++ rest).dropWhile pyIsWS =
          d0 :: d1 :: rest := by
        rw [List.append_assoc, dropWhile_append_all _ _ _ hws]
        show (d0 :: d1 :: rest).dropWhile pyIsWS = d0 :: d1 :: rest
        rw [List.dropWhile_cons, if_neg (by simp [hd0w])]
      have hmatch : scheduleMatch (c1 :: c2 :: c3 ::
          ((w0 :: ws') ++ [d0, d1] ++ rest)) = some ([c1, c2, c3], [d0, d1]) := by
        rw [scheduleMatch, if_pos (by simp [ha1, ha2, ha3]), htk, hdw]
        simp only [List.isEmpty_cons, Bool.false_eq_true, if_false]
        rw [if_pos hd0, if_pos hd1]
      unfold parseScheduleDate
      rw [if_neg hne, hdec, hmatch]
      show (match dget monthsTable (String.mk (pyTitle [c1, c2, c3])) with
            | none => some (cleanText s)
            | some mon2 => some (padZeros 4 year ++ "-" ++ padZeros 2 mon2 ++
                "-" ++ padZeros 2 (natOfDigits [d0, d1]))) =
          some (padZeros 4 year ++ "-" ++ padZeros 2 mon ++ "-" ++
            padZeros 2 (natOfDigits [d0, d1]))
      rw [hmon]
    · have hds2 : ds2 = [] := by
        simp only [List.length_cons] at h1
        exact List.length_eq_zero.mp (by omega)
      subst hds2
      have htk : ((w0 :: ws') ++ [d0] ++ rest).takeWhile pyIsWS = w0 :: ws' := by
        rw [List.append_assoc, takeWhile_append_all _ _ _ hws]
        show (w0 :: ws') ++ (d0 :: rest).takeWhile pyIsWS = w0 :: ws'
        rw [List.takeWhile_cons, if_neg (by simp [hd0w]), List.append_nil]
      have hdw : ((w0 :: ws') ++ [d0] ++ rest).dropWhile pyIsWS = d0 :: rest := by
        rw [List.append_assoc, dropWhile_append_all _ _ _ hws]
        show (d0 :: rest).dropWhile pyIsWS = d0 :: rest
        rw [List.dropWhile_cons, if_neg (by simp [hd0w])]
      have hmatch : scheduleMatch (c1 :: c2 :: c3 ::
          ((w0 :: ws') ++ [d0] ++ rest)) = some ([c1, c2, c3], [d0]) := by
        rw [scheduleMatch, if_pos (by simp [ha1, ha2, ha3]), htk, hdw]
        cases rest with
        | nil =>
          simp only [List.isEmpty_cons, Bool.false_eq_true, if_false]
          rw [if_pos hd0]
        | cons r rs =>
          have hr : isDigitC r = false := hrne r (by simp)
          simp only [List.isEmpty_cons, Bool.false_eq_true, if_false]
          rw [if_pos hd0, if_neg (by simp [hr])]
      unfold parseScheduleDate
      rw [if_neg hne, hdec, hmatch]
      show (match dget monthsTable (String.mk (pyTitle [c1, c2, c3])) with
            | none => some (cleanText s)
            | some mon2 => some (padZeros 4 year ++ "-" ++ padZeros 2 mon2 ++
                "-" ++ padZeros 2 (natOfDigits [d0]))) =
          some (padZeros 4 year ++ "-" ++ padZeros 2 mon ++ "-" ++
            padZeros 2 (natOfDigits [d0]))
      rw [hmon]
  · intro s year hne hmatch
    unfold parseScheduleDate
    rw [if_neg hne, hmatch]
  · intro s year mon3 ds hne hmatch hmon
    unfold parseScheduleDate
    rw [if_neg hne, hmatch]
    show (match dget monthsTable (String.mk (pyTitle mon3)) with
          | none => some (cleanText s)
          | some mon2 => some (padZeros 4 year ++ "-" ++ padZeros 2 mon2 ++
              "-" ++ padZeros 2 (natOfDigits ds))) = some (cleanText s)
    rw [hmon]

/-- Witness for the amended C6 at the spec's own examples plus inputs
with trailing content and a multi-character whitespace run. -/
theorem claim_C6_schedule_date_amended_witness :
    parseScheduleDate "Sep 28" 2024 = some "2024-09-28" ∧
    parseScheduleDate "Sep 28th" 2024 = some "2024-09-28" ∧
    parseScheduleDate "Sep  5" 2024 = some "2024-09-05" ∧
    parseScheduleDate "garbage" 2024 = some "garbage" := by
  refine ⟨?_, ?_, ?_, ?_⟩
  · have h := claim_C6_schedule_date_amended.1 "Sep 28" 2024 'S' 'e' 'p'
      [' '] ['2', '8'] [] 9 (by decide) (by decide) (by decide) (by decide)
      (by decide) (by decide) (by decide) (by decide) (by decide) (by decide)
      (by decide)
    exact h
  · have h := claim_C6_schedule_date_amended.1 "Sep 28th" 2024 'S' 'e' 'p'
      [' '] ['2', '8'] ['t', 'h'] 9 (by decide) (by decide) (by decide)
      (by decide) (by decide) (by decide) (by decide) (by decide) (by decide)
      (by decide) (by decide)
    exact h
  · have h := claim_C6_schedule_date_amended.1 "Sep  5" 2024 'S' 'e' 'p'
      [' ', ' '] ['5'] [] 9 (by decide) (by decide) (by decide) (by decide)
      (by decide) (by decide) (by decide) (by decide) (by decide) (by decide)
      (by decide)
    exact h
  · exact claim_C6_schedule_date_amended.2.1 "garbage" 2024 (by decide) (by decide)

/-! ## Identifier extraction (C7) -/

theorem espnIdScan_no_match (l : List Char)
    (h : ∀ i, idMatchHere (l.drop i) = false) : espnIdScan l = [] := by
  induction l with
  | nil => rfl
  | cons c cs ih =>
    rw [espnIdScan, if_neg (by simpa using h 0)]
    exact ih (fun i => h (i + 1))

theorem espnIdScan_first_match (l : List Char) (i : Nat)
    (hmatch : idMatchHere (l.drop i) = true)
    (hfirst : ∀ j, j < i → idMatchHere (l.drop j) = false) :
    espnIdScan l = (l.drop (i + 4)).takeWhile isDigitC := by
  induction l generalizing i with
  | nil =>
    rw [List.drop_nil] at hmatch
    simp [idMatchHere] at hmatch
  | cons c cs ih =>
    cases i with
    | zero =>
      rw [espnIdScan, if_pos (by simpa using hmatch)]
    | succ i' =>
      have h0 : idMatchHere (c :: cs) = false := by simpa using hfirst 0 (Nat.succ_pos i')
      rw [espnIdScan, if_neg (by simp [h0])]
      have hm' : idMatchHere (cs.drop i') = true := hmatch
      have hf' : ∀ j, j < i' → idMatchHere (cs.drop j) = false := by
        intro j hj
        exact hfirst (j + 1) (Nat.succ_lt_succ hj)
      rw [ih i' hm' hf']
      have harith : i' + 1 + 4 = (i' + 4) + 1 := by omega
      rw [harith, List.drop_succ_cons]

theorem splitSlash_ne_nil (l : List Char) : splitSlash l ≠ [] := by
  induction l with
  | nil => simp [splitSlash]
  | cons c cs ih =>
    rw [splitSlash]
    by_cases hc : c = '/'
    · simp [hc]
    · rw [if_neg hc]
      cases h : splitSlash cs with
      | nil => simp
      | cons g gs => simp

theorem splitSlash_no_slash (l : List Char) (h : '/' ∉ l) : splitSlash l = [l] := by
  induction l with
  | nil => rfl
  | cons c cs ih =>
    have hc : ¬(c = '/') := fun hh => h (by simp [hh])
    rw [splitSlash, if_neg hc, ih (fun hh => h (by simp [hh]))]

theorem splitSlash_length_ge_two (l : List Char) (h : '/' ∈ l) :
    2 ≤ (splitSlash l).length := by
  induction l with
  | nil => simp at h
  | cons c cs ih =>
    rw [splitSlash]
    by_cases hc : c = '/'
    · rw [if_pos hc]
      have h2 : splitSlash cs ≠ [] := splitSlash_ne_nil cs
      have : 1 ≤ (splitSlash cs).length := by
        cases hx : splitSlash cs with
        | nil => exact absurd hx h2
        | cons g gs => simp
      simp only [List.length_cons]
      omega
    · rw [if_neg hc]
      have hcs : '/' ∈ cs := by
        rcases List.mem_cons.mp h with hh | hh
        · exact absurd hh.symm hc
        · exact hh
      have h2 := ih hcs
      cases hx : splitSlash cs with
      | nil => exact absurd hx (splitSlash_ne_nil cs)
      | cons g gs =>
        rw [hx] at h2
        simpa using h2

theorem splitSlash_getLast_append (a seg : List Char) (hseg : '/' ∉ seg) :
    (splitSlash (a ++ '/' :: seg)).getLast? = some seg := by
  induction a with
  | nil =>
    rw [List.nil_append, splitSlash, if_pos rfl, splitSlash_no_slash seg hseg]
    rfl
  | cons c a' ih =>
    rw [List.cons_append, splitSlash]
    by_cases hc : c = '/'
    · rw [if_pos hc]
      cases hx : splitSlash (a' ++ '/' :: seg) with
      | nil => exact absurd hx (splitSlash_ne_nil _)
      | cons g gs =>
        rw [List.getLast?_cons_cons, ← hx]
        exact ih
    · rw [if_neg hc]
      have hlen := splitSlash_length_ge_two (a' ++ '/' :: seg) (by simp)
      cases hx : splitSlash (a' ++ '/' :: seg) with
      | nil => exact absurd hx (splitSlash_ne_nil _)
      | cons g gs =>
        rw [hx] at hlen
        cases gs with
        | nil => simp at hlen
        | cons g2 gs2 =>
          rw [List.getLast?_cons_cons]
          have : (g :: g2 :: gs2).getLast? = some seg := by
            rw [← hx]
            exact ih
          rw [List.getLast?_cons_cons] at this
          exact this

/-- C7: the ESPN `_extract_id_from_url` returns the digits captured by the
first occurrence of `/id/(\d+)` and the empty string when the pattern does
not occur or the URL is empty; the UFC `_extract_id_from_url` returns the
final path segment (the substring after the last `/`, the whole string when
no slash occurs) and the empty string on empty input; both are total. -/
theorem claim_C7_extract_id :
    (espnExtractId "" = "") ∧
    (∀ url : String, (∀ i, idMatchHere (url.data.drop i) = false) →
      espnExtractId url = "") ∧
    (∀ url : String, ∀ i : Nat, idMatchHere (url.data.drop i) = true →
      (∀ j, j < i → idMatchHere (url.data.drop j) = false) →
      espnExtractId url = String.mk ((url.data.drop (i + 4)).takeWhile isDigitC)) ∧
    (ufcExtractId "" = "") ∧
    (∀ url : String, ∀ a seg : List Char, url.data = a ++ '/' :: seg →
      '/' ∉ seg → ufcExtractId url = String.mk seg) ∧
    (∀ url : String, url ≠ "" → '/' ∉ url.data → ufcExtractId url = url) := by
  refine ⟨rfl, ?_, ?_, rfl, ?_, ?_⟩
  · intro url h
    unfold espnExtractId
    by_cases hurl : url = ""
    · rw [if_pos hurl]
    · rw [if_neg hurl, espnIdScan_no_match url.data h]
  · intro url i hmatch hfirst
    have hurl : ¬(url = "") := by
      intro hc
      subst hc
      rw [show ("" : String).data = [] from rfl, List.drop_nil] at hmatch
      simp [idMatchHere] at hmatch
    unfold espnExtractId
    rw [if_neg hurl, espnIdScan_first_match url.data i hmatch hfirst]
  · intro url a seg hdata hseg
    have hurl : ¬(url = "") := by
      intro hc
      subst hc
      rw [show ("" : String).data = [] from rfl] at hdata
      exact List.noConfusion (List.append_eq_nil.mp hdata.symm).2
    unfold ufcExtractId
    rw [if_neg hurl, hdata, splitSlash_getLast_append a seg hseg]
    rfl
  · intro url hurl hslash
    unfold ufcExtractId
    rw [if_neg hurl, splitSlash_no_slash url.data hslash]
    rfl

/-- Witness for C7 at one URL of each site's scheme. -/
theorem claim_C7_extract_id_witness :
    espnExtractId "https://www.espn.com/mma/fighter/_/id/2335639/x" = "2335639" ∧
    ufcExtractId "http://ufcstats.com/fighter-details/abc123" = "abc123" := by
  constructor
  · have h := claim_C7_extract_id.2.2.1
      "https://www.espn.com/mma/fighter/_/id/2335639/x" 34 (by decide) (by decide)
    exact h
  · have h := claim_C7_extract_id.2.2.2.2.1
      "http://ufcstats.com/fighter-details/abc123"
      "http://ufcstats.com/fighter-details".data "abc123".data (by decide) (by decide)
    exact h

/-! ## Fight-of-the-Night matching (C8) -/

theorem startsWithL_iff (a b : List Char) : startsWithL a b = true ↔ a <+: b := by
  induction a generalizing b with
  | nil => simp [startsWithL]
  | cons x xs ih =>
    cases b with
    | nil =>
      simp [startsWithL]
    | cons y ys =>
      simp [startsWithL, List.cons_prefix_iff, ih, Bool.and_eq_true,
        decide_eq_true_eq]

theorem subIn_iff (n hay : List Char) : subIn n hay = true ↔ n <:+: hay := by
  induction hay with
  | nil =>
    simp [subIn, List.isEmpty_iff]
  | cons c t ih =>
    simp [subIn, Bool.or_eq_true, startsWithL_iff, ih, List.infix_cons_iff]

/-- C8: for every pair of fighter names and every FOTN text, the heuristic
match is true exactly when the lower-cased accent-stripped last name of
BOTH fighters is a non-empty substring (infix) of the lower-cased
accent-stripped FOTN text; either one failing makes the match false. -/
theorem claim_C8_fotn_match (n1 n2 t : String) :
    namesMatchFotn n1 n2 t = true ↔
      (lastNameKey n1 ≠ [] ∧ lastNameKey n1 <:+: fotnKey t ∧
       lastNameKey n2 ≠ [] ∧ lastNameKey n2 <:+: fotnKey t) := by
  unfold namesMatchFotn
  by_cases ht : t = ""
  · rw [if_pos ht]
    subst ht
    simp only [Bool.false_eq_true, false_iff]
    rintro ⟨h1, h2, -, -⟩
    rw [show fotnKey "" = [] from rfl] at h2
    exact h1 (List.infix_nil.mp h2)
  · rw [if_neg ht]
    simp only [Bool.and_eq_true, Bool.not_eq_true', List.isEmpty_eq_false,
      subIn_iff]
    tauto

/-! ## Fight-history header fallback (C9) -/

/-- C9: when a history table's header row yields fewer than 3 normalized
headers (including none), `_parse_fight_history_table` silently keys every
body row by the fixed 7-column layout
date | opponent | result | method | round | time | event, uniformly for
all rows (rows without cells are still skipped). -/
theorem claim_C9_history_header_fallback (ths : List String)
    (trs : List (List Cell)) (h : (ths.map normalizeHeader).length < 3) :
    parseFightHistoryTable ⟨some ths, some trs⟩ =
      trs.filterMap (fun tds =>
        if tds.isEmpty then none
        else some (historyRow
          ["date", "opponent", "result", "method", "round", "time", "event"] tds)) := by
  show (let headers0 := ths.map normalizeHeader
        let headers := if headers0.length < 3 then hist7 else headers0
        trs.filterMap (fun tds =>
          if tds.isEmpty then none else some (historyRow headers tds))) = _
  simp only [if_pos h]
  rfl

/-- Witness for C9 at a concrete one-header table. -/
theorem claim_C9_history_header_fallback_witness :
    parseFightHistoryTable ⟨some ["Weird"], some [[⟨"1/1/2020", none⟩]]⟩ =
      [[(⟨"1/1/2020", none⟩ : Cell)]].filterMap (fun tds =>
        if tds.isEmpty then none
        else some (historyRow
          ["date", "opponent", "result", "method", "round", "time", "event"] tds)) := by
  have h := claim_C9_history_header_fallback ["Weird"] [[⟨"1/1/2020", none⟩]]
    (by decide)
  exact h

/-! ## Stats-table synthetic columns and fixed meta keys (C10) -/

theorem natOfDigits_append_digit (l : List Char) (c : Char) :
    natOfDigits (l ++ [c]) = 10 * natOfDigits l + digitVal c := by
  simp [natOfDigits, List.foldl_append]

theorem digitVal_digitChar (n : Nat) (h : n < 10) :
    digitVal (digitChar n) = n := by
  interval_cases n <;> rfl

theorem natOfDigits_natReprAux (fuel n : Nat) (h : n < fuel) :
    natOfDigits (natReprAux fuel n) = n := by
  induction fuel generalizing n with
  | zero => omega
  | succ f ih =>
    rw [natReprAux]
    by_cases h10 : n < 10
    · rw [if_pos h10]
      show 10 * 0 + digitVal (digitChar n) = n
      rw [digitVal_digitChar n h10]
      omega
    · rw [if_neg h10, natOfDigits_append_digit]
      have hd : n / 10 < n := Nat.div_lt_self (by omega) (by omega)
      rw [ih (n / 10) (by omega), digitVal_digitChar _ (Nat.mod_lt n (by omega))]
      omega

theorem natRepr_injective (a b : Nat) (h : natRepr a = natRepr b) : a = b := by
  have ha := natOfDigits_natReprAux (a + 1) a (by omega)
  have hb := natOfDigits_natReprAux (b + 1) b (by omega)
  unfold natRepr at h
  rw [← ha, ← hb, h]

theorem colKey_injective (i j : Nat) (h : colKey i = colKey j) : i = j := by
  have h2 : 'c' :: 'o' :: 'l' :: '_' :: natRepr i =
      'c' :: 'o' :: 'l' :: '_' :: natRepr j := congrArg String.data h
  simp only [List.cons.injEq, true_and] at h2
  exact natRepr_injective i j h2

theorem colKey_ne (i : Nat) (s : String) (hs : s.data.head? ≠ some 'c') :
    ¬(colKey i = s) := by
  intro h
  apply hs
  rw [← h]
  rfl

theorem colKey_contains_meta (i : Nat) :
    metaKeys7.contains (colKey i) = false := by
  cases hc : metaKeys7.contains (colKey i) with
  | false => rfl
  | true =>
    exfalso
    have hmem : colKey i ∈ metaKeys7 := by
      simpa using hc
    simp only [metaKeys7, List.mem_cons, List.not_mem_nil, or_false] at hmem
    rcases hmem with h | h | h | h | h | h | h <;>
      exact colKey_ne i _ (by decide) h

theorem dget_rowMetrics (row : PyDict) (k : String)
    (hk : metaKeys7.contains k = false) :
    dget (rowMetrics row) k = dget row k := by
  induction row with
  | nil => rfl
  | cons p t ih =>
    obtain ⟨a, b⟩ := p
    rw [rowMetrics, List.filter_cons]
    by_cases hp : metaKeys7.contains a = true
    · have hak : ¬(a = k) := by
        intro hh
        rw [hh, hk] at hp
        exact Bool.false_ne_true hp
      simp only [hp, Bool.not_true, Bool.false_eq_true, if_false]
      rw [show dget ((a, b) :: t) k = dget t k from by rw [dget, if_neg hak]]
      exact ih
    · have hp2 : metaKeys7.contains a = false := by
        cases hx : metaKeys7.contains a with
        | false => rfl
        | true => exact absurd hx hp
      simp only [hp2, Bool.not_false, if_true]
      rw [dget, dget]
      by_cases hak : a = k
      · rw [if_pos hak, if_pos hak]
      · rw [if_neg hak, if_neg hak]
        exact ih

theorem statsCellStep_synthetic (headers : List String) (row : PyDict)
    (i : Nat) (td : Cell) (h : headers.length ≤ i) :
    statsCellStep headers row i td = dinsert row (colKey i) (tdTextVal td) := by
  unfold statsCellStep
  rw [List.get?_eq_none.mpr h]
  simp only [Option.getD_none]
  rw [if_neg (colKey_ne i "Date" (by decide)),
      if_neg (colKey_ne i "Opponent" (by decide)),
      if_neg (colKey_ne i "Event" (by decide)),
      if_neg (by simp [colKey_ne i "Res." (by decide), colKey_ne i "Res" (by decide)])]

theorem statsRowAux_preserve (headers : List String) (i : Nat)
    (hlen : headers.length ≤ i) :
    ∀ (tds : List Cell) (j : Nat) (row : PyDict), i < j →
      dget (statsRowAux headers j tds row) (colKey i) = dget row (colKey i) := by
  intro tds
  induction tds with
  | nil => intro j row _; rfl
  | cons td tds' ih =>
    intro j row hij
    rw [show statsRowAux headers j (td :: tds') row =
      statsRowAux headers (j + 1) tds' (statsCellStep headers row j td) from rfl]
    rw [ih (j + 1) _ (by omega)]
    rw [statsCellStep_synthetic headers row j td (by omega)]
    exact dget_dinsert_ne _ _ _ _
      (fun hh => absurd (colKey_injective i j hh) (by omega))

theorem statsRowAux_synthetic (headers : List String) (i : Nat)
    (hlen : headers.length ≤ i) :
    ∀ (tds : List Cell) (j : Nat) (row : PyDict), j ≤ i → i < j + tds.length →
      ∀ (hb : i - j < tds.length),
      dget (statsRowAux headers j tds row) (colKey i) =
        some (tdTextVal (tds.get ⟨i - j, hb⟩)) := by
  intro tds
  induction tds with
  | nil => intro j row _ hub _; simp at hub; omega
  | cons td tds' ih =>
    intro j row hji hub hb
    rw [show statsRowAux headers j (td :: tds') row =
      statsRowAux headers (j + 1) tds' (statsCellStep headers row j td) from rfl]
    by_cases hj : j = i
    · subst hj
      rw [statsRowAux_preserve headers j hlen tds' (j + 1) _ (by omega)]
      rw [statsCellStep_synthetic headers row j td hlen, dget_dinsert_self]
      have hfin : (⟨j - j, hb⟩ : Fin (td :: tds').length) = ⟨0, by simp⟩ :=
        Fin.ext (by show j - j = 0; omega)
      rw [hfin]
      rfl
    · have hb' : i - (j + 1) < tds'.length := by
        simp only [List.length_cons] at hub
        omega
      rw [ih (j + 1) _ (by omega) (by simp only [List.length_cons] at hub; omega) hb']
      have hfin : (⟨i - j, hb⟩ : Fin (td :: tds').length) =
          ⟨(i - (j + 1)) + 1, by simp only [List.length_cons]; omega⟩ :=
        Fin.ext (by show i - j = (i - (j + 1)) + 1; omega)
      rw [hfin, List.get_cons_succ]

theorem rowMeta_keys (row : PyDict) :
    (rowMeta row).map Prod.fst = metaKeys7 := by
  rw [rowMeta, List.map_map]
  exact List.map_id metaKeys7

theorem dget_dinsert_cases {α : Type} (d : List (String × α)) (k k' : String)
    (v w : α) (h : dget (dinsert d k v) k' = some w) :
    w = v ∨ dget d k' = some w := by
  rw [dget_dinsert] at h
  by_cases hk : k' = k
  · rw [if_pos hk] at h
    injection h with h2
    exact Or.inl h2.symm
  · rw [if_neg hk] at h
    exact Or.inr h

/-- C10: in a Section Stats Payload built by `_parse_stats_table`, every
body-row cell whose column index has no corresponding header cell is stored
under the synthetic key `col_i` (`i` the zero-based cell index) and lands in
the row's `metrics` mapping; `meta` always holds exactly the seven fixed
keys date, opponent, opponent_url, opponent_id, event_url, event_id, result
(each possibly null). -/
theorem claim_C10_stats_synthetic_columns :
    (∀ (headers : List String) (tds : List Cell) (i : Nat)
      (hb : i < tds.length), headers.length ≤ i →
      dget (rowMetrics (statsRow headers tds)) (colKey i) =
        some (tdTextVal (tds.get ⟨i, hb⟩))) ∧
    (∀ (headers : List String) (tds : List Cell),
      (rowMeta (statsRow headers tds)).map Prod.fst = metaKeys7) ∧
    (∀ (t? : Option StatsTable) (k : String) (sr : SectionRow),
      dget (parseStatsTable t?) k = some sr →
      sr.meta.map Prod.fst = metaKeys7) := by
  refine ⟨?_, fun headers tds => rowMeta_keys _, ?_⟩
  · intro headers tds i hb hlen
    rw [dget_rowMetrics _ _ (colKey_contains_meta i)]
    have h := statsRowAux_synthetic headers i hlen tds 0 [] (by omega)
      (by omega) (by omega)
    rw [show statsRow headers tds = statsRowAux headers 0 tds [] from rfl, h]
    rfl
  · intro t? k sr h
    cases t? with
    | none => simp [parseStatsTable, dget] at h
    | some t =>
      obtain ⟨ths, tbody⟩ := t
      have haux : ∀ (rows : List (List Cell)) (out : List (String × SectionRow)),
          (∀ k' sr', dget out k' = some sr' → sr'.meta.map Prod.fst = metaKeys7) →
          ∀ k' sr', dget (rows.foldl (fun out tds =>
            if tds.isEmpty then out
            else
              let row := statsRow (ths.map statHeaderText) tds
              dinsert out (joinKey row) ⟨rowMeta row, rowMetrics row⟩) out) k' =
              some sr' →
          sr'.meta.map Prod.fst = metaKeys7 := by
        intro rows
        induction rows with
        | nil => intro out hout; exact hout
        | cons tds rows' ih =>
          intro out hout
          rw [List.foldl_cons]
          refine ih _ ?_
          intro k' sr' h'
          by_cases he : tds.isEmpty
          · rw [if_pos he] at h'
            exact hout k' sr' h'
          · rw [if_neg he] at h'
            rcases dget_dinsert_cases _ _ _ _ _ h' with h2 | h2
            · rw [h2]
              exact rowMeta_keys _
            · exact hout k' sr' h2
      exact haux tbody [] (by intro k' sr' hx; simp [dget] at hx) k sr h

/-- Witness for C10: a concrete one-header table with a two-cell row stores
the second cell under `col_1` inside `metrics`, and the payload's meta keys
are the fixed seven. -/
theorem claim_C10_stats_synthetic_columns_witness :
    dget (rowMetrics (statsRow ["TSL"] [⟨"5", none⟩, ⟨"7", none⟩]))
      (colKey 1) = some (tdTextVal ⟨"7", none⟩) ∧
    (rowMeta (statsRow ["TSL"] [⟨"5", none⟩, ⟨"7", none⟩])).map Prod.fst =
      metaKeys7 := by
  constructor
  · have h := claim_C10_stats_synthetic_columns.1 ["TSL"]
      [⟨"5", none⟩, ⟨"7", none⟩] 1 (by decide) (by decide)
    exact h
  · exact claim_C10_stats_synthetic_columns.2.1 ["TSL"] [⟨"5", none⟩, ⟨"7", none⟩]

end Scraper
